import Mathlib

/-!
Shallow embedding of the search core of `src/strategies.py` (the `CS4701Bot`
engine of this repository) together with proofs about it.

Conventions used throughout:

* Python numbers (ints and floats) are modelled by `Rat`; every float that the
  source produces is of the form `k / 2` for an integer `k`, so rational
  arithmetic is exact for them.
* `chess.WHITE` is `True` in python-chess, so colors are `Bool` with `true` =
  white.  Squares are `Fin 64` (a1 = 0 .. h8 = 63, as in python-chess).
* The rules engine (python-chess) is an external collaborator: a position is
  modelled as a finitely branching game tree `GTree` whose outgoing edges carry
  the move, its is-capture flag and the successor position; the edge list plays
  the role of the engine's legal-move list in the order `gen_moves` produces it
  (sorting permutes the legal moves only, which no property below depends on),
  and `gen_moves_q` filters it by the capture flag exactly as the source does.
* The mutable `self._board` traversed by `push`/`pop` is a `Board`: the current
  node plus the stack of parent positions; `push` moves to a child, `pop`
  undoes the most recent push.
* Wall-clock time (`time()`) is an oracle `clock : Nat → Rat` sampled at
  successive indices; a counter is threaded through the code so that every
  `time()` call of the source consumes exactly one sample.
-/

/-- Material value of a pawn (`PAWN_VALUE = 100` in the source). -/
def PAWN_VALUE : Int := 100

/-- Material value of a knight (`KNIGHT_VALUE = 305`). -/
def KNIGHT_VALUE : Int := 305

/-- Material value of a bishop (`BISHOP_VALUE = 333`). -/
def BISHOP_VALUE : Int := 333

/-- Material value of a rook (`ROOK_VALUE = 563`). -/
def ROOK_VALUE : Int := 563

/-- Material value of a queen (`QUEEN_VALUE = 950`). -/
def QUEEN_VALUE : Int := 950

/-- Sentinel magnitude for mate scores (`MATE_VALUE = 100000`). -/
def MATE_VALUE : Rat := 100000

/-- Upper search bound (`POS_MAX = 1000000`). -/
def POS_MAX : Rat := 1000000

/-- Lower search bound (`NEG_MAX = -1000000`). -/
def NEG_MAX : Rat := -1000000

/-- Piece-square table for pawns (`pawntable`). -/
def pawntable : Fin 64 → Int :=
  ![0, 0, 0, 0, 0, 0, 0, 0,
    5, 10, 10, -20, -20, 10, 10, 5,
    5, -5, -10, 0, 0, -10, -5, 5,
    0, 0, 0, 20, 20, 0, 0, 0,
    5, 5, 10, 25, 25, 10, 5, 5,
    10, 10, 20, 30, 30, 20, 10, 10,
    50, 50, 50, 50, 50, 50, 50, 50,
    100, 100, 100, 100, 100, 100, 100, 100]

/-- Piece-square table for knights (`knighttable`). -/
def knighttable : Fin 64 → Int :=
  ![-50, -40, -30, -30, -30, -30, -40, -50,
    -40, -20, 0, 5, 5, 0, -20, -40,
    -30, 5, 10, 15, 15, 10, 5, -30,
    -30, 0, 15, 20, 20, 15, 0, -30,
    -30, 5, 15, 20, 20, 15, 5, -30,
    -30, 0, 10, 15, 15, 10, 0, -30,
    -40, -20, 0, 0, 0, 0, -20, -40,
    -50, -40, -30, -30, -30, -30, -40, -50]

/-- Piece-square table for bishops (`bishoptable`). -/
def bishoptable : Fin 64 → Int :=
  ![-20, -10, -10, -10, -10, -10, -10, -20,
    -10, 5, 0, 0, 0, 0, 5, -10,
    -10, 10, 10, 10, 10, 10, 10, -10,
    -10, 0, 10, 10, 10, 10, 0, -10,
    -10, 5, 5, 10, 10, 5, 5, -10,
    -10, 0, 5, 10, 10, 5, 0, -10,
    -10, 0, 0, 0, 0, 0, 0, -10,
    -20, -10, -10, -10, -10, -10, -10, -20]

/-- Piece-square table for rooks (`rooktable`). -/
def rooktable : Fin 64 → Int :=
  ![0, 0, 0, 5, 5, 0, 0, 0,
    -5, 0, 0, 0, 0, 0, 0, -5,
    -5, 0, 0, 0, 0, 0, 0, -5,
    -5, 0, 0, 0, 0, 0, 0, -5,
    -5, 0, 0, 0, 0, 0, 0, -5,
    -5, 0, 0, 0, 0, 0, 0, -5,
    5, 10, 10, 10, 10, 10, 10, 5,
    0, 0, 0, 0, 0, 0, 0, 0]

/-- Piece-square table for queens (`queentable`). -/
def queentable : Fin 64 → Int :=
  ![-20, -10, -10, -5, -5, -10, -10, -20,
    -10, 0, 0, 0, 0, 0, 0, -10,
    -10, 5, 5, 5, 5, 5, 0, -10,
    0, 0, 5, 5, 5, 5, 0, -5,
    -5, 0, 5, 5, 5, 5, 0, -5,
    -10, 0, 5, 5, 5, 5, 0, -10,
    -10, 0, 0, 0, 0, 0, 0, -10,
    -20, -10, -10, -5, -5, -10, -10, -20]

/-- Piece-square table for the king before the endgame (`kingtable`). -/
def kingtable : Fin 64 → Int :=
  ![20, 30, 10, 0, 0, 10, 30, 20,
    20, 20, 0, 0, 0, 0, 20, 20,
    -10, -20, -20, -20, -20, -20, -20, -10,
    -20, -30, -30, -40, -40, -30, -30, -20,
    -30, -40, -40, -50, -50, -40, -40, -30,
    -30, -40, -40, -50, -50, -40, -40, -30,
    -30, -40, -40, -50, -50, -40, -40, -30,
    -30, -40, -40, -50, -50, -40, -40, -30]

/-- Piece-square table for the king in the endgame (`kingtableend`). -/
def kingtableend : Fin 64 → Int :=
  ![-50, -30, -30, -30, -30, -30, -30, -50,
    -30, -30, 0, 0, 0, 0, -30, -30,
    -30, -10, 20, 30, 30, 20, -10, -30,
    -30, -10, 30, 40, 40, 30, -10, -30,
    -30, -10, 30, 40, 40, 30, -10, -30,
    -30, -10, 20, 30, 30, 20, -10, -30,
    -30, -20, -10, 0, 0, -10, -20, -30,
    -50, -40, -30, -20, -20, -30, -40, -50]

/-- Piece types of python-chess (`chess.PAWN` .. `chess.KING`). -/
inductive Piece where
  | pawn
  | knight
  | bishop
  | rook
  | queen
  | king
deriving DecidableEq, Repr

/-- The `positionalValue(square, piece, color, endgame)` function of the
source: for black (`color` falsy) the square index is flipped to `63 - square`
(`Fin.rev`), then the table of the piece type is consulted; the king uses the
endgame table when `endgame` holds. -/
def positionalValue (square : Fin 64) (piece : Piece) (color : Bool)
    (endgame : Bool) : Int :=
  let sq := if color then square else square.rev
  match piece with
  | .pawn => pawntable sq
  | .knight => knighttable sq
  | .bishop => bishoptable sq
  | .rook => rooktable sq
  | .queen => queentable sq
  | .king => if endgame then kingtableend sq else kingtable sq

/-- Piece placement of a position as seen by `CS4701Bot.eval`: the twelve
`self._board.pieces(piece_type, color)` square sets, plus the side to move
(`self._board.turn`). Field names follow the local variables of `eval`. -/
structure Position where
  turn : Bool
  wps : Finset (Fin 64)
  bps : Finset (Fin 64)
  wns : Finset (Fin 64)
  bns : Finset (Fin 64)
  wbs : Finset (Fin 64)
  bbs : Finset (Fin 64)
  wrs : Finset (Fin 64)
  brs : Finset (Fin 64)
  wqs : Finset (Fin 64)
  bqs : Finset (Fin 64)
  wks : Finset (Fin 64)
  bks : Finset (Fin 64)

/-- White's non-pawn material, the `whitematerial` local of `eval`. -/
def whitematerial (p : Position) : Int :=
  p.wns.card * KNIGHT_VALUE + p.wbs.card * BISHOP_VALUE +
    p.wrs.card * ROOK_VALUE + p.wqs.card * QUEEN_VALUE

/-- Black's non-pawn material, the `blackmaterial` local of `eval`. -/
def blackmaterial (p : Position) : Int :=
  p.bns.card * KNIGHT_VALUE + p.bbs.card * BISHOP_VALUE +
    p.brs.card * ROOK_VALUE + p.bqs.card * QUEEN_VALUE

/-- The `whitepawns` local of `eval`: `len(wps) * PAWN_VALUE`. -/
def whitepawns (p : Position) : Int := p.wps.card * PAWN_VALUE

/-- The `blackpawns` local of `eval`.  The source (line 235) computes
`len(wps) * PAWN_VALUE` here — it reads the white pawn set, not the black
one; this definition reproduces that faithfully. -/
def blackpawns (p : Position) : Int := p.wps.card * PAWN_VALUE

/-- The `endgamew` local of `eval`: white has no queen or little material. -/
def endgamew (p : Position) : Bool :=
  decide (p.wqs.card = 0 ∨ whitematerial p < 1300)

/-- The `endgameb` local of `eval`: black has no queen or little material. -/
def endgameb (p : Position) : Bool :=
  decide (p.bqs.card = 0 ∨ blackmaterial p < 1300)

/-- The `whiteeval` accumulator of `eval`: white material plus the (possibly
endgame-scaled) positional sums of all white pieces. -/
def whiteeval (p : Position) (endgame : Bool) : Rat :=
  ((whitematerial p + whitepawns p : Int) : Rat) +
    (if endgame then (1.5 : Rat) else 1) *
      ((Finset.sum p.wps fun i => positionalValue i .pawn true endgame : Int) : Rat) +
    ((Finset.sum p.wns fun i => positionalValue i .knight true endgame : Int) : Rat) +
    ((Finset.sum p.wbs fun i => positionalValue i .bishop true endgame : Int) : Rat) +
    ((Finset.sum p.wrs fun i => positionalValue i .rook true endgame : Int) : Rat) +
    ((Finset.sum p.wqs fun i => positionalValue i .queen true endgame : Int) : Rat) +
    ((Finset.sum p.wks fun i => positionalValue i .king true endgame : Int) : Rat)

/-- The `blackeval` accumulator of `eval`: black material (with the
`blackpawns` term as the source computes it) plus black positional sums. -/
def blackeval (p : Position) (endgame : Bool) : Rat :=
  ((blackmaterial p + blackpawns p : Int) : Rat) +
    (if endgame then (1.5 : Rat) else 1) *
      ((Finset.sum p.bps fun i => positionalValue i .pawn false endgame : Int) : Rat) +
    ((Finset.sum p.bns fun i => positionalValue i .knight false endgame : Int) : Rat) +
    ((Finset.sum p.bbs fun i => positionalValue i .bishop false endgame : Int) : Rat) +
    ((Finset.sum p.brs fun i => positionalValue i .rook false endgame : Int) : Rat) +
    ((Finset.sum p.bqs fun i => positionalValue i .queen false endgame : Int) : Rat) +
    ((Finset.sum p.bks fun i => positionalValue i .king false endgame : Int) : Rat)

/-- The static evaluator `CS4701Bot.eval` (lines 215-274): side-to-move
relative difference of the two accumulators, with the overall endgame flag
the conjunction of the per-side flags. -/
def eval (p : Position) : Rat :=
  let endgame := endgamew p && endgameb p
  if p.turn then whiteeval p endgame - blackeval p endgame
  else blackeval p endgame - whiteeval p endgame

/-- Color flip of a position: mirror every square (`63 - s`), swap the two
sides' piece sets, and give the move to the other side. -/
def mirrorPos (p : Position) : Position where
  turn := !p.turn
  wps := p.bps.image Fin.rev
  bps := p.wps.image Fin.rev
  wns := p.bns.image Fin.rev
  bns := p.wns.image Fin.rev
  wbs := p.bbs.image Fin.rev
  bbs := p.wbs.image Fin.rev
  wrs := p.brs.image Fin.rev
  brs := p.wrs.image Fin.rev
  wqs := p.bqs.image Fin.rev
  bqs := p.wqs.image Fin.rev
  wks := p.bks.image Fin.rev
  bks := p.wks.image Fin.rev

/-- Moves are abstract values supplied by the rules engine; `Move.null` is
`chess.Move.null()`, with which the `best_move` array is initialised. -/
inductive Move where
  | null
  | m (n : Nat)
deriving DecidableEq, Repr, Inhabited

/-- Game tree of positions as exposed by the rules engine: the side to move,
the static evaluation `CS4701Bot.eval` assigns to the node, whether the side
to move is in check (`board.is_check()`), and the outgoing legal moves, each
with its `board.is_capture` flag and successor position.  The edge list is in
the order `gen_moves` yields (the heuristic sort permutes the legal moves
only; no property proved below depends on the order). -/
inductive GTree where
  | node (turn : Bool) (ev : Rat) (check : Bool)
      (children : List (Move × Bool × GTree))

/-- Side to move at a node (`board.turn`). -/
def GTree.turn : GTree → Bool
  | .node t _ _ _ => t

/-- Static evaluation of the node, the value `CS4701Bot.eval` returns there
(see `eval` above for the concrete evaluator on piece placements). -/
def GTree.ev : GTree → Rat
  | .node _ e _ _ => e

/-- Whether the side to move is in check (`board.is_check()`). -/
def GTree.check : GTree → Bool
  | .node _ _ c _ => c

/-- Outgoing legal moves of the node. -/
def GTree.children : GTree → List (Move × Bool × GTree)
  | .node _ _ _ ch => ch

/-- The shared mutable `self._board`: the current position plus the stack of
positions that `push` calls have traversed (python-chess's move stack). -/
structure Board where
  cur : GTree
  stack : List GTree

/-- The `board.push(move)` operation: move to the successor position. -/
def Board.push (bd : Board) (c : GTree) : Board := ⟨c, bd.cur :: bd.stack⟩

/-- The `board.pop()` operation: undo the most recent push.  A pop on an
empty stack never occurs in the source (every pop is preceded by a push);
it is modelled as a no-op. -/
def Board.pop (bd : Board) : Board :=
  match bd.stack with
  | [] => bd
  | p :: rest => ⟨p, rest⟩

/-- The `CS4701Bot.gen_moves` legal-move list (lines 282-322); the heuristic
sort permutes the legal moves and is absorbed into the edge order of the
tree, so the list is the node's edge list. -/
def gen_moves (t : GTree) : List (Move × Bool × GTree) := t.children

/-- The `CS4701Bot.gen_moves_q` capture list (lines 207-213): the legal moves
filtered by `board.is_capture`. -/
def gen_moves_q (t : GTree) : List (Move × Bool × GTree) :=
  t.children.filter fun e => e.2.1

/-- The `CS4701Bot.scoreEnd` terminal score (lines 276-280): `-MATE_VALUE +
depth` when the side to move is in check, else `0`. -/
def scoreEnd (check : Bool) (depth : Nat) : Rat :=
  if check then -MATE_VALUE + depth else 0

/-- The per-depth records of `CS4701Bot.search`: the `best_move` and
`best_eval` arrays, indexed by the maximum depth of the iteration that wrote
them. -/
structure SearchState where
  best_move : List Move
  best_eval : List Rat

mutual

/-- The inner `quiescence_search(alpha, beta)` closure (lines 381-395):
stand pat on the static evaluation, fail-high on `beta`, otherwise raise
`alpha` and try each capture move via push/recurse/pop.  The returned pair is
the value together with the board as the call leaves it. -/
def quiescence_search (alpha beta : Rat) (bd : Board) : Rat × Board :=
  let standpat := bd.cur.ev
  if standpat ≥ beta then (beta, bd)
  else
    let alpha1 := if alpha < standpat then standpat else alpha
    q_loop beta (gen_moves_q bd.cur) alpha1 bd
termination_by sizeOf bd.cur
decreasing_by
  have hfil : ∀ l : List (Move × Bool × GTree),
      sizeOf (List.filter (fun e => e.2.1) l) ≤ sizeOf l := by
    intro l
    induction l with
    | nil => simp [List.filter]
    | cons a l ih =>
      rw [List.filter_cons]
      split <;> simp only [List.cons.sizeOf_spec] <;> omega
  obtain ⟨cur, stk⟩ := bd
  obtain ⟨tu, ev, ck, ch⟩ := cur
  have h := hfil ch
  simp only [gen_moves_q, GTree.children, GTree.node.sizeOf_spec]
  omega

/-- The body of the `for mv in self.gen_moves_q()` loop of
`quiescence_search`: one iteration per capture move, with the cutoff and the
`alpha` update exactly as in the source. -/
def q_loop (beta : Rat) (moves : List (Move × Bool × GTree)) (alpha : Rat)
    (bd : Board) : Rat × Board :=
  match moves with
  | [] => (alpha, bd)
  | (_, _, c) :: rest =>
    let r := quiescence_search (-beta) (-alpha) (bd.push c)
    let bd2 := r.2.pop
    let val := -r.1
    if val ≥ beta then (beta, bd2)
    else if val > alpha then q_loop beta rest val bd2
    else q_loop beta rest alpha bd2
termination_by sizeOf moves
decreasing_by all_goals simp [Board.push] <;> omega

end

mutual

/-- The inner `ab_search(d, md, alpha, beta, time_lim)` closure (lines
340-378): quiescence at the horizon, terminal score when there is no legal
move, otherwise the move loop.  Returns the value, the board, the advanced
clock counter and the updated best-move records. -/
def ab_search (clock : Nat → Rat) (start_time time_lim : Rat) (d md : Nat)
    (alpha beta : Rat) (bd : Board) (k : Nat) (st : SearchState) :
    Rat × Board × Nat × SearchState :=
  if d = md then
    let r := quiescence_search alpha beta bd
    (r.1, r.2, k, st)
  else
    let moves := gen_moves bd.cur
    if moves.isEmpty then (scoreEnd bd.cur.check d, bd, k, st)
    else ab_loop clock start_time time_lim d md beta moves alpha bd k st
termination_by sizeOf bd.cur
decreasing_by
  obtain ⟨cur, stk⟩ := bd
  obtain ⟨tu, ev, ck, ch⟩ := cur
  simp only [gen_moves, GTree.children, GTree.node.sizeOf_spec]
  omega

/-- The body of the `for mv in moves` loop of `ab_search`: the cooperative
time check (`time() - start_time >= time_lim` breaks out of the loop and the
current `alpha` is returned), then push/recurse/pop, the beta cutoff, and the
`alpha` update which at the root (`d == 0`) also records the move and value
into `best_move[md]` / `best_eval[md]`. -/
def ab_loop (clock : Nat → Rat) (start_time time_lim : Rat) (d md : Nat)
    (beta : Rat) (moves : List (Move × Bool × GTree)) (alpha : Rat)
    (bd : Board) (k : Nat) (st : SearchState) :
    Rat × Board × Nat × SearchState :=
  match moves with
  | [] => (alpha, bd, k, st)
  | (mv, _, c) :: rest =>
    if clock k - start_time ≥ time_lim then (alpha, bd, k + 1, st)
    else
      let r := ab_search clock start_time time_lim (d + 1) md (-beta) (-alpha)
        (bd.push c) (k + 1) st
      let bd2 := r.2.1.pop
      let val := -r.1
      if val ≥ beta then (beta, bd2, r.2.2.1, r.2.2.2)
      else if val > alpha then
        let st2 := if d = 0 then
            ⟨r.2.2.2.best_move.set md mv, r.2.2.2.best_eval.set md val⟩
          else r.2.2.2
        ab_loop clock start_time time_lim d md beta rest val bd2 r.2.2.1 st2
      else
        ab_loop clock start_time time_lim d md beta rest alpha bd2 r.2.2.1 r.2.2.2
termination_by sizeOf moves
decreasing_by all_goals simp [Board.push] <;> omega

end

/-- The `EXPECTED_MOVES = 32.5` constant of `CS4701Bot.search`. -/
def EXPECTED_MOVES : Rat := 32.5

/-- The `self._maxdepth = 10` ceiling set in `CS4701Bot.__init__`. -/
def MAXDEPTH : Nat := 10

/-- The move part of the `chess.engine.PlayResult` the engine returns; the
source always passes `None` for the second (ponder) component. -/
structure PlayResult where
  move : Move
deriving DecidableEq, Repr

/-- Python truthiness of an optional clock value: `None` and `0` are falsy. -/
def truthy : Option Rat → Bool
  | none => false
  | some x => decide (x ≠ 0)

/-- The `get_c_time_left` closure (lines 398-405): returns the white clock if
it is white's turn and the white clock is truthy, else the black clock if
truthy, else Python's implicit `None`. -/
def get_c_time_left (turn : Bool) (white_clock black_clock : Option Rat) :
    Option Rat :=
  if turn && truthy white_clock then white_clock
  else if truthy black_clock then black_clock
  else none

/-- Python list indexing `l[i]` including the negative-index convention
`l[-j] = l[len(l) - j]`.  Out-of-range indices would raise in Python; the
source only ever uses indices in range (between `-1` and `len(l) - 1`), so
the default value of the fallback branch is never consulted. -/
def pyGet {α : Type} [Inhabited α] (l : List α) (i : Int) : α :=
  if i < 0 then l.getD ((l.length : Int) + i).toNat default
  else l.getD i.toNat default

/-- Decides the real-number comparison `a < b * Real.sqrt n` (the affordability
check `... < depth_time[d-1] * math.sqrt(len(...))` of the source) by squaring,
so that the driver stays executable over `Rat`. -/
def ltMulSqrt (a b : Rat) (n : Nat) : Bool :=
  if 0 ≤ b then decide (a < 0) || (decide (0 ≤ a) && decide (a ^ 2 < b ^ 2 * n))
  else decide (a < 0) && decide (a ^ 2 > b ^ 2 * n)

/-- The freshly allocated per-call records of `CS4701Bot.search`:
`best_move = [chess.Move.null()] * (self._maxdepth + 1)` and
`best_eval = [0] * (self._maxdepth + 1)`. -/
def initState : SearchState :=
  ⟨List.replicate (MAXDEPTH + 1) Move.null, List.replicate (MAXDEPTH + 1) 0⟩

/-- The normal-mode `for d in range(self._maxdepth + 1)` loop of
`CS4701Bot.search` (lines 414-432) plus the final fallthrough return of line
436: the affordability check before each depth, the timed `ab_search` call,
the recording of `depth_time[d]`, and the per-move-budget check after each
depth.  `none` models the `TypeError` Python would raise if
`get_c_time_left()` returned `None`. -/
def id_loop (clock : Nat → Rat) (start_time base_time_left : Rat)
    (turn : Bool) (white_clock black_clock : Option Rat) :
    List Nat → List Rat → Board → Nat → SearchState → Option PlayResult
  | [], _, _, _, st => some ⟨pyGet st.best_move (MAXDEPTH : Int)⟩
  | d :: ds, depth_time, bd, k, st =>
    match get_c_time_left turn white_clock black_clock with
    | none => none
    | some cur =>
      if ltMulSqrt (base_time_left / EXPECTED_MOVES - base_time_left + cur)
          (pyGet depth_time ((d : Int) - 1)) bd.cur.children.length then
        some ⟨pyGet st.best_move ((d : Int) - 1)⟩
      else
        let timer := clock k
        let r := ab_search clock start_time (base_time_left / EXPECTED_MOVES)
          0 d NEG_MAX POS_MAX bd (k + 1) st
        let dt2 := depth_time.set d (clock r.2.2.1 - timer)
        if clock (r.2.2.1 + 1) - start_time ≥ base_time_left / EXPECTED_MOVES
        then some ⟨pyGet r.2.2.2.best_move ((d : Int) - 1)⟩
        else
          id_loop clock start_time base_time_left turn white_clock black_clock
            ds dt2 r.2.1 (r.2.2.1 + 2) r.2.2.2

/-- The top-level `CS4701Bot.search(board, time_limit, ponder, draw_offered)`
method (lines 324-436): sample `start_time`, allocate the records, read the
side to move's clock, then either the emergency fixed-depth-2 search (clock at
or below 5 seconds) or normal-mode iterative deepening. -/
def search (clock : Nat → Rat) (white_clock black_clock : Option Rat)
    (board : GTree) : Option PlayResult :=
  let start_time := clock 0
  match get_c_time_left board.turn white_clock black_clock with
  | none => none
  | some base_time_left =>
    if base_time_left ≤ 5 then
      let r := ab_search clock start_time 100000 0 2 NEG_MAX POS_MAX
        ⟨board, []⟩ 1 initState
      some ⟨pyGet r.2.2.2.best_move 2⟩
    else
      id_loop clock start_time base_time_left board.turn white_clock
        black_clock (List.range (MAXDEPTH + 1)) (List.replicate (MAXDEPTH + 1) 0)
        ⟨board, []⟩ 1 initState

/-! ### Specification-side definitions

The following definitions are written from the specification's words, not from
the source, and exist so that refinement statements can compare the two: the
"true" quiescence value of a position (the fail-soft value the spec's
quiescence description computes, with no window), and the unpruned negamax
value of fixed depth with the quiescence evaluation at its leaves. -/

mutual

/-- Modelled from the spec: the unbounded quiescence value of a position — the
maximum of the stand-pat evaluation and the negated quiescence values of all
capture successors. -/
def qvalue (t : GTree) : Rat :=
  q_fold (gen_moves_q t) t.ev
termination_by sizeOf t
decreasing_by
  have hfil : ∀ l : List (Move × Bool × GTree),
      sizeOf (List.filter (fun e => e.2.1) l) ≤ sizeOf l := by
    intro l
    induction l with
    | nil => simp [List.filter]
    | cons a l ih =>
      rw [List.filter_cons]
      split <;> simp only [List.cons.sizeOf_spec] <;> omega
  obtain ⟨tu, ev, ck, ch⟩ := t
  have h := hfil ch
  simp only [gen_moves_q, GTree.children, GTree.node.sizeOf_spec]
  omega

/-- Running maximum of `acc` and the negated quiescence values of a list of
capture moves. -/
def q_fold : List (Move × Bool × GTree) → Rat → Rat
  | [], acc => acc
  | (_, _, c) :: rest, acc => q_fold rest (max acc (-qvalue c))
termination_by moves _ => sizeOf moves
decreasing_by all_goals simp <;> omega

end

mutual

/-- Modelled from the spec: unpruned fixed-depth negamax with the quiescence
evaluation at the horizon and the source's terminal scoring at stuck nodes —
the reference value the pruned `ab_search` is compared against. -/
def negamaxSpec (d md : Nat) (t : GTree) : Rat :=
  if d = md then qvalue t
  else
    match h : gen_moves t with
    | [] => scoreEnd t.check d
    | e :: rest => nm_fold (d + 1) md rest (-negamaxSpec (d + 1) md e.2.2)
termination_by sizeOf t
decreasing_by
  all_goals
    obtain ⟨tu, ev, ck, ch⟩ := t
    obtain ⟨mv, cap, c⟩ := e
    simp only [gen_moves, GTree.children] at h
    subst h
    simp only [GTree.node.sizeOf_spec, List.cons.sizeOf_spec,
      Prod.mk.sizeOf_spec]
    omega

/-- Running maximum of `acc` and the negated depth-`d1` negamax values of a
list of moves. -/
def nm_fold (d1 md : Nat) : List (Move × Bool × GTree) → Rat → Rat
  | [], acc => acc
  | (_, _, c) :: rest, acc => nm_fold d1 md rest (max acc (-negamaxSpec d1 md c))
termination_by moves _ => sizeOf moves
decreasing_by all_goals simp <;> omega

end

mutual

/-- All static evaluations in the tree lie in `[-MATE_VALUE, MATE_VALUE]`.
Real chess positions satisfy this by a wide margin: the largest magnitude the
concrete `eval` can reach is far below `100000`. -/
def evB : GTree → Bool
  | .node _ e _ ch =>
    decide (-MATE_VALUE ≤ e) && decide (e ≤ MATE_VALUE) && evBL ch
termination_by t => sizeOf t
decreasing_by
  simp only [GTree.node.sizeOf_spec]
  omega

/-- List version of `evB`. -/
def evBL : List (Move × Bool × GTree) → Bool
  | [] => true
  | (_, _, c) :: rest => evB c && evBL rest
termination_by moves => sizeOf moves
decreasing_by all_goals simp <;> omega

end

mutual

/-- Every position reachable within `k` plies has at least one legal move
(no mate or stalemate occurs strictly before the horizon). -/
def noStuck : Nat → GTree → Bool
  | 0, _ => true
  | k + 1, t => !(gen_moves t).isEmpty && noStuckL k (gen_moves t)
termination_by k t => (k, sizeOf t)
decreasing_by
  exact Prod.Lex.left _ _ (by omega)

/-- List version of `noStuck`. -/
def noStuckL : Nat → List (Move × Bool × GTree) → Bool
  | _, [] => true
  | k, (_, _, c) :: rest => noStuck k c && noStuckL k rest
termination_by k moves => (k, sizeOf moves)
decreasing_by
  · exact Prod.Lex.right _ (by simp <;> omega)
  · exact Prod.Lex.right _ (by simp <;> omega)

end

/-! ### Concrete instances used in counterexamples and witnesses -/

/-- A clock that never advances; with any positive budget the cooperative
time check never fires. -/
def clock0 : Nat → Rat := fun _ => 0

/-- Quiet position (no captures available) whose evaluation is `5`. -/
def tQuiet5 : GTree := .node true 5 false []

/-- Position with no legal moves and the side to move in check (a mated
position). -/
def tMated : GTree := .node true 0 true []

/-- Mated position used for the window counterexample. -/
def tMatedNarrow : GTree := .node true 0 true []

/-- Two-move position for the alpha-beta/negamax witness: the first reply
evaluates to `-3` for the opponent, the second to `2`. -/
def tTwo : GTree :=
  .node true 0 false
    [(Move.m 1, false, .node false (-3) false []),
     (Move.m 2, false, .node false 2 false [])]

/-- Position with one quiet legal move for the budget-exhaustion scenario. -/
def tOne : GTree :=
  .node true 0 false [(Move.m 1, false, .node false 0 false [])]

/-- Clock run for the budget-exhaustion scenario: depth 0 finishes at
`0.1` seconds and the post-depth check fires at `0.21` seconds, beyond the
per-move budget `6.5 / 32.5 = 0.2`. -/
def clockBudget : Nat → Rat :=
  fun n => if n ≤ 1 then 0 else if n = 2 then 1 / 10 else 21 / 100

/-- Successor position in the emergency-mode counterexample: quiet, no
further moves. -/
def tEmgChild : GTree := .node false 0 false []

/-- Position with one quiet legal move used in the emergency-mode
counterexample. -/
def tEmg : GTree :=
  .node true 0 false [(Move.m 1, false, tEmgChild)]

/-- Clock run for the emergency-mode counterexample: normal mode's depth 0
takes 4 seconds and the post-depth check fires at 5 seconds, beyond the
per-move budget `100 / 32.5`. -/
def clockEmg : Nat → Rat :=
  fun n => if n ≤ 1 then 0 else if n = 2 then 4 else 5

/-- Successor position in the affordability-check scenario: evaluates to
`-7` for the opponent, no further moves. -/
def tAffChild : GTree := .node false (-7) false []

/-- Position for the affordability-check scenario: one legal move whose
successor evaluates to `-7` for the opponent. -/
def tAff : GTree :=
  .node true 0 false [(Move.m 1, false, tAffChild)]

/-- Clock run for the affordability-check scenario (budget `0.2` seconds):
depth 0 lasts from `0.005` to `0.155` seconds, so that by the claim's
reckoning depth 1 is unaffordable (`0.2 - 0.16 < 0.15 * sqrt 1`), yet the
code starts depth 1 (and depth 2), stopping only at `0.21` seconds. -/
def clockAff : Nat → Rat := fun n =>
  match n with
  | 0 => 0
  | 1 => 1 / 200
  | 2 => 31 / 200
  | 3 => 4 / 25
  | 4 => 33 / 200
  | 5 => 17 / 100
  | 6 => 7 / 40
  | 7 => 9 / 50
  | 8 => 37 / 200
  | 9 => 19 / 100
  | 10 => 41 / 200
  | _ => 21 / 100

/-- Bare-kings position: white king on e1 (square 4), black king on e8
(square 60), white to move. -/
def posKings : Position :=
  ⟨true, ∅, ∅, ∅, ∅, ∅, ∅, ∅, ∅, ∅, ∅, {4}, {60}⟩

/-- The bare-kings position with one extra black pawn on a5 (square 32, a
square whose pawn-table entry is zero). -/
def posKingsPawn : Position :=
  ⟨true, ∅, {32}, ∅, ∅, ∅, ∅, ∅, ∅, ∅, ∅, {4}, {60}⟩

/-! ### Helper lemmas -/

/-- Strong induction over game trees: to prove a property of every position it
suffices to prove it at each node assuming it at all successor positions. -/
theorem GTree.strongInd {P : GTree → Prop}
    (h : ∀ turn ev check children,
      (∀ mv cap c, (mv, cap, c) ∈ children → P c) →
        P (.node turn ev check children)) :
    ∀ t, P t := fun t =>
  match t with
  | .node tu ev ck ch => h tu ev ck ch fun mv cap c hc => GTree.strongInd h c
termination_by t => sizeOf t
decreasing_by
  have h1 := List.sizeOf_lt_of_mem hc
  simp only [Prod.mk.sizeOf_spec, GTree.node.sizeOf_spec] at *
  omega

/-- The accumulator only grows along `q_fold`. -/
theorem le_q_fold (l : List (Move × Bool × GTree)) (acc : Rat) :
    acc ≤ q_fold l acc := by
  induction l generalizing acc with
  | nil => simp [q_fold]
  | cons e rest ih =>
    obtain ⟨mv, cap, c⟩ := e
    simp only [q_fold]
    exact le_trans (le_max_left _ _) (ih _)

/-- `q_fold` commutes with joining a constant into the accumulator. -/
theorem q_fold_max (l : List (Move × Bool × GTree)) (a x : Rat) :
    q_fold l (max a x) = max a (q_fold l x) := by
  induction l generalizing x with
  | nil => simp [q_fold]
  | cons e rest ih =>
    obtain ⟨mv, cap, c⟩ := e
    simp only [q_fold]
    rw [max_assoc]
    exact ih _

/-- The accumulator only grows along `nm_fold`. -/
theorem le_nm_fold (d1 md : Nat) (l : List (Move × Bool × GTree)) (acc : Rat) :
    acc ≤ nm_fold d1 md l acc := by
  induction l generalizing acc with
  | nil => simp [nm_fold]
  | cons e rest ih =>
    obtain ⟨mv, cap, c⟩ := e
    simp only [nm_fold]
    exact le_trans (le_max_left _ _) (ih _)

/-- `nm_fold` commutes with joining a constant into the accumulator. -/
theorem nm_fold_max (d1 md : Nat) (l : List (Move × Bool × GTree)) (a x : Rat) :
    nm_fold d1 md l (max a x) = max a (nm_fold d1 md l x) := by
  induction l generalizing x with
  | nil => simp [nm_fold]
  | cons e rest ih =>
    obtain ⟨mv, cap, c⟩ := e
    simp only [nm_fold]
    rw [max_assoc]
    exact ih _

/-- The capture-move loop of the quiescence search leaves the board exactly
as it found it, provided each recursive call does. -/
theorem q_loop_board (b : Rat) (l : List (Move × Bool × GTree))
    (H : ∀ mv cap c, (mv, cap, c) ∈ l →
      ∀ (a b2 : Rat) (stk : List GTree),
        (quiescence_search a b2 ⟨c, stk⟩).2 = ⟨c, stk⟩) :
    ∀ (alpha : Rat) (bd : Board), (q_loop b l alpha bd).2 = bd := by
  induction l with
  | nil => intro alpha bd; simp [q_loop]
  | cons e rest ih =>
    obtain ⟨mv, cap, c⟩ := e
    intro alpha bd
    have hc := H mv cap c (by simp) (-b) (-alpha) (bd.cur :: bd.stack)
    have hrest : ∀ mv2 cap2 c2, (mv2, cap2, c2) ∈ rest →
        ∀ (a b2 : Rat) (stk : List GTree),
          (quiescence_search a b2 ⟨c2, stk⟩).2 = ⟨c2, stk⟩ :=
      fun mv2 cap2 c2 hm => H mv2 cap2 c2 (List.mem_cons_of_mem _ hm)
    simp only [q_loop, Board.push, hc, Board.pop]
    split
    · rfl
    · split
      · exact ih hrest _ _
      · exact ih hrest _ _

/-- The quiescence search leaves the board exactly as it found it. -/
theorem quiescence_search_board (t : GTree) :
    ∀ (stk : List GTree) (a b : Rat),
      (quiescence_search a b ⟨t, stk⟩).2 = ⟨t, stk⟩ := by
  induction t using GTree.strongInd with
  | h tu ev ck ch IH =>
    intro stk a b
    rw [quiescence_search]
    split
    · rfl
    · exact q_loop_board _ _
        (fun mv cap c hm a2 b2 stk2 =>
          IH mv cap c (List.mem_of_mem_filter hm) stk2 a2 b2) _ _

/-- The move loop of the alpha-beta search leaves the board exactly as it
found it — on normal exhaustion, on a beta cutoff, and on the cooperative
time break — provided each recursive call does. -/
theorem ab_loop_board (clock : Nat → Rat) (start_time time_lim : Rat)
    (d md : Nat) (b : Rat) (l : List (Move × Bool × GTree))
    (H : ∀ mv cap c, (mv, cap, c) ∈ l →
      ∀ (a b2 : Rat) (stk : List GTree) (k : Nat) (st : SearchState),
        (ab_search clock start_time time_lim (d + 1) md a b2 ⟨c, stk⟩ k st).2.1 =
          ⟨c, stk⟩) :
    ∀ (alpha : Rat) (bd : Board) (k : Nat) (st : SearchState),
      (ab_loop clock start_time time_lim d md b l alpha bd k st).2.1 = bd := by
  induction l with
  | nil => intro alpha bd k st; simp [ab_loop]
  | cons e rest ih =>
    obtain ⟨mv, cap, c⟩ := e
    intro alpha bd k st
    have hc := H mv cap c (by simp) (-b) (-alpha) (bd.cur :: bd.stack) (k + 1) st
    have hrest : ∀ mv2 cap2 c2, (mv2, cap2, c2) ∈ rest →
        ∀ (a b2 : Rat) (stk : List GTree) (k2 : Nat) (st2 : SearchState),
          (ab_search clock start_time time_lim (d + 1) md a b2 ⟨c2, stk⟩ k2
            st2).2.1 = ⟨c2, stk⟩ :=
      fun mv2 cap2 c2 hm => H mv2 cap2 c2 (List.mem_cons_of_mem _ hm)
    simp only [ab_loop, Board.push, hc, Board.pop]
    split
    · rfl
    · split
      · rfl
      · split
        · exact ih hrest _ _ _ _
        · exact ih hrest _ _ _ _

/-- The alpha-beta search leaves the board exactly as it found it. -/
theorem ab_search_board (clock : Nat → Rat) (start_time time_lim : Rat)
    (md : Nat) (t : GTree) :
    ∀ (d : Nat) (stk : List GTree) (a b : Rat) (k : Nat) (st : SearchState),
      (ab_search clock start_time time_lim d md a b ⟨t, stk⟩ k st).2.1 =
        ⟨t, stk⟩ := by
  induction t using GTree.strongInd with
  | h tu ev ck ch IH =>
    intro d stk a b k st
    rw [ab_search]
    split
    · dsimp only
      exact quiescence_search_board _ stk a b
    · dsimp only [gen_moves, GTree.children]
      split
      · rfl
      · exact ab_loop_board clock start_time time_lim d md b _
          (fun mv cap c hm a2 b2 stk2 k2 st2 =>
            IH mv cap c hm (d + 1) stk2 a2 b2 k2 st2) _ _ _ _

/-- C1: every call to the alpha-beta search or the quiescence search — for any
bounds, depth, clock oracle and time budget, whether it returns normally, on a
beta cutoff, or by breaking out on the cooperative time check — leaves the
shared board in exactly its original state: every pushed move has been popped
in strict LIFO order, so the current position (side to move and piece
placement) and the move stack are both unchanged. -/
theorem c1_board_restored :
    (∀ (a b : Rat) (bd : Board), (quiescence_search a b bd).2 = bd) ∧
    (∀ (clock : Nat → Rat) (start_time time_lim : Rat) (d md : Nat)
        (a b : Rat) (bd : Board) (k : Nat) (st : SearchState),
        (ab_search clock start_time time_lim d md a b bd k st).2.1 = bd) := by
  constructor
  · intro a b bd
    obtain ⟨cur, stk⟩ := bd
    exact quiescence_search_board cur stk a b
  · intro clock start_time time_lim d md a b bd k st
    obtain ⟨cur, stk⟩ := bd
    exact ab_search_board clock start_time time_lim md cur d stk a b k st

/-- The capture-move loop computes the window-clamped running maximum:
given that each recursive call satisfies the clamp equation, the loop equals
`min beta (q_fold moves alpha)`. -/
theorem q_loop_clamp (b : Rat) (l : List (Move × Bool × GTree))
    (H : ∀ mv cap c, (mv, cap, c) ∈ l →
      ∀ (stk : List GTree) (a2 b2 : Rat), a2 ≤ b2 →
        (quiescence_search a2 b2 ⟨c, stk⟩).1 = min b2 (max a2 (qvalue c))) :
    ∀ (alpha : Rat) (bd : Board), alpha ≤ b →
      (q_loop b l alpha bd).1 = min b (q_fold l alpha) := by
  induction l with
  | nil =>
    intro alpha bd hab
    simp only [q_loop, q_fold]
    exact (min_eq_right hab).symm
  | cons e rest ih =>
    obtain ⟨mv, cap, c⟩ := e
    intro alpha bd hab
    have hrest : ∀ mv2 cap2 c2, (mv2, cap2, c2) ∈ rest →
        ∀ (stk : List GTree) (a2 b2 : Rat), a2 ≤ b2 →
          (quiescence_search a2 b2 ⟨c2, stk⟩).1 = min b2 (max a2 (qvalue c2)) :=
      fun mv2 cap2 c2 hm => H mv2 cap2 c2 (List.mem_cons_of_mem _ hm)
    have hc := H mv cap c (by simp) (bd.cur :: bd.stack) (-b) (-alpha)
      (by linarith)
    have hval : -(quiescence_search (-b) (-alpha) (bd.push c)).1 =
        max alpha (min b (-qvalue c)) := by
      rw [show bd.push c = ⟨c, bd.cur :: bd.stack⟩ from rfl, hc]
      simp only [min_def, max_def]
      split_ifs <;> linarith
    simp only [q_loop, q_fold]
    rw [hval]
    set u : Rat := -qvalue c with hu
    split
    case isTrue hcut =>
      have hmb : b ≤ max alpha u := by
        rcases le_total u b with h1 | h1
        · rcases max_cases alpha (min b u) with ⟨heq, _⟩ | ⟨heq, hlt⟩ <;>
            rw [heq] at hcut
          · exact le_trans hcut (le_trans (le_max_left _ _) (le_refl _))
          · have : min b u = u := min_eq_right h1
            rw [this] at hcut
            exact le_trans hcut (le_max_right _ _)
        · exact le_trans h1 (le_trans (le_max_right alpha u) (le_refl _))
      have := le_trans hmb (le_q_fold rest (max alpha u))
      exact (min_eq_left this).symm
    case isFalse hncut =>
      push_neg at hncut
      split
      case isTrue hup =>
        have hub : u ≤ b := by
          by_contra hub2
          push_neg at hub2
          rw [min_eq_left (le_of_lt hub2), max_eq_right hab] at hncut
          exact lt_irrefl b hncut
        rw [min_eq_right hub]
        exact ih hrest (max alpha u) _ (max_le hab hub)
      case isFalse hnup =>
        push_neg at hnup
        rw [ih hrest alpha _ hab]
        rcases le_or_lt u alpha with h1 | h1
        · rw [max_eq_left h1]
        · have hminle : min b u ≤ alpha := le_trans (le_max_right alpha _) hnup
          have hba : b ≤ alpha := by
            rcases le_total b u with h2 | h2
            · rwa [min_eq_left h2] at hminle
            · rw [min_eq_right h2] at hminle; linarith
          have heq : alpha = b := le_antisymm hab hba
          have g1 : b ≤ q_fold rest alpha := by
            rw [← heq]
            exact le_q_fold _ _
          have g2 : b ≤ q_fold rest (max alpha u) := by
            rw [← heq]
            exact le_trans (le_max_left _ _) (le_q_fold _ _)
          rw [min_eq_left g1, min_eq_left g2]

/-- The quiescence search is the window-clamped quiescence value: for
`alpha ≤ beta` it returns `min beta (max alpha (qvalue t))`. -/
theorem quiescence_search_clamp (t : GTree) :
    ∀ (stk : List GTree) (a b : Rat), a ≤ b →
      (quiescence_search a b ⟨t, stk⟩).1 = min b (max a (qvalue t)) := by
  induction t using GTree.strongInd with
  | h tu ev ck ch IH =>
    intro stk a b hab
    have hq : qvalue (GTree.node tu ev ck ch) =
        q_fold (List.filter (fun e => e.2.1) ch) ev := by
      rw [qvalue]
      rfl
    rw [quiescence_search]
    dsimp only [GTree.ev, gen_moves_q, GTree.children]
    split
    case isTrue hsp =>
      have h1 : ev ≤ qvalue (GTree.node tu ev ck ch) := by
        rw [hq]
        exact le_q_fold _ _
      have h2 : b ≤ max a (qvalue (GTree.node tu ev ck ch)) :=
        le_trans hsp (le_trans h1 (le_max_right _ _))
      exact (min_eq_left h2).symm
    case isFalse hsp =>
      push_neg at hsp
      have halpha : (if a < ev then ev else a) = max a ev := by
        rcases lt_or_ge a ev with h | h
        · rw [if_pos h, max_eq_right (le_of_lt h)]
        · rw [if_neg (not_lt.2 h), max_eq_left h]
      rw [halpha]
      have hml : max a ev ≤ b := max_le hab (le_of_lt hsp)
      rw [q_loop_clamp b _ (fun mv cap c hm stk2 a2 b2 h2 =>
        IH mv cap c (List.mem_of_mem_filter hm) stk2 a2 b2 h2) (max a ev) _ hml]
      rw [q_fold_max, hq]

/-- C4 counterexample: a quiet position (no capture available) evaluating to
`5`, searched with the window `(0, 3)`, returns the clamp `3`, not the
evaluation `5` — so the quiescence search does not return `evaluate(position)`
for every `alpha` and `beta`. -/
theorem c4_counterexample :
    gen_moves_q tQuiet5 = [] ∧ GTree.ev tQuiet5 = 5 ∧
      (quiescence_search 0 3 ⟨tQuiet5, []⟩).1 = 3 ∧ (3 : Rat) ≠ 5 := by
  refine ⟨rfl, rfl, ?_, by norm_num⟩
  rw [quiescence_search]
  norm_num [tQuiet5, GTree.ev]

/-- C4 (amended): on a position with zero available capture moves the
quiescence search returns the stand-pat evaluation clamped into the window,
`min beta (max alpha (eval))`; in particular it returns exactly
`evaluate(position)` whenever that value lies within `[alpha, beta]`. -/
theorem c4_amended (t : GTree) (stk : List GTree) (a b : Rat)
    (hq : gen_moves_q t = []) (hab : a ≤ b) :
    (quiescence_search a b ⟨t, stk⟩).1 = min b (max a t.ev) ∧
    (a ≤ t.ev → t.ev ≤ b → (quiescence_search a b ⟨t, stk⟩).1 = t.ev) := by
  have h1 : qvalue t = t.ev := by
    rw [qvalue, hq]
    simp [q_fold]
  have h2 := quiescence_search_clamp t stk a b hab
  rw [h1] at h2
  refine ⟨h2, fun hle hge => ?_⟩
  rw [h2, max_eq_right hle, min_eq_right hge]

/-- C4 witness: the amended statement evaluated on the quiet position with
evaluation `5` and the window `(0, 10)`: the search returns exactly `5`. -/
theorem c4_witness :
    gen_moves_q tQuiet5 = [] ∧ (0 : Rat) ≤ 10 ∧
      (quiescence_search 0 10 ⟨tQuiet5, []⟩).1 = GTree.ev tQuiet5 := by
  refine ⟨rfl, by norm_num, ?_⟩
  exact (c4_amended tQuiet5 [] 0 10 rfl (by norm_num)).2
    (by norm_num [tQuiet5, GTree.ev]) (by norm_num [tQuiet5, GTree.ev])

/-- Characterisation of `evB` at a node. -/
theorem evB_node (tu : Bool) (ev : Rat) (ck : Bool)
    (ch : List (Move × Bool × GTree)) :
    evB (.node tu ev ck ch) = true ↔
      -MATE_VALUE ≤ ev ∧ ev ≤ MATE_VALUE ∧ evBL ch = true := by
  rw [evB]
  simp [Bool.and_eq_true, and_assoc]

/-- Membership extraction for `evBL`. -/
theorem evBL_mem {l : List (Move × Bool × GTree)} {mv : Move} {cap : Bool}
    {c : GTree} (hm : (mv, cap, c) ∈ l) (h : evBL l = true) : evB c = true := by
  induction l with
  | nil => cases hm
  | cons e rest ih =>
    obtain ⟨mv2, cap2, c2⟩ := e
    rw [evBL, Bool.and_eq_true] at h
    rcases List.mem_cons.1 hm with h1 | h1
    · cases h1
      exact h.1
    · exact ih h1 h.2

/-- Bound preservation along `q_fold`. -/
theorem q_fold_bound (M : Rat) (l : List (Move × Bool × GTree))
    (H : ∀ mv cap c, (mv, cap, c) ∈ l → -M ≤ qvalue c ∧ qvalue c ≤ M) :
    ∀ acc : Rat, -M ≤ acc → acc ≤ M →
      -M ≤ q_fold l acc ∧ q_fold l acc ≤ M := by
  induction l with
  | nil =>
    intro acc h1 h2
    simpa [q_fold] using ⟨h1, h2⟩
  | cons e rest ih =>
    obtain ⟨mv, cap, c⟩ := e
    intro acc h1 h2
    have hc := H mv cap c (by simp)
    have hrest := fun mv2 cap2 c2 hm => H mv2 cap2 c2 (List.mem_cons_of_mem _ hm)
    simp only [q_fold]
    exact ih hrest _ (le_trans h1 (le_max_left _ _))
      (max_le h2 (by linarith [hc.1]))

/-- The quiescence value of a tree with bounded evaluations lies in
`[-MATE_VALUE, MATE_VALUE]`. -/
theorem qvalue_bound : ∀ t : GTree, evB t = true →
    -MATE_VALUE ≤ qvalue t ∧ qvalue t ≤ MATE_VALUE := by
  refine GTree.strongInd ?_
  intro tu ev ck ch IH hb
  rw [evB_node] at hb
  rw [qvalue]
  dsimp only [gen_moves_q, GTree.children, GTree.ev]
  exact q_fold_bound MATE_VALUE _
    (fun mv cap c hm => IH mv cap c (List.mem_of_mem_filter hm)
      (evBL_mem (List.mem_of_mem_filter hm) hb.2.2)) ev hb.1 hb.2.1

/-- Bound preservation along `nm_fold`. -/
theorem nm_fold_bound (d1 md : Nat) (M : Rat) (l : List (Move × Bool × GTree))
    (H : ∀ mv cap c, (mv, cap, c) ∈ l →
      -M ≤ negamaxSpec d1 md c ∧ negamaxSpec d1 md c ≤ M) :
    ∀ acc : Rat, -M ≤ acc → acc ≤ M →
      -M ≤ nm_fold d1 md l acc ∧ nm_fold d1 md l acc ≤ M := by
  induction l with
  | nil =>
    intro acc h1 h2
    simpa [nm_fold] using ⟨h1, h2⟩
  | cons e rest ih =>
    obtain ⟨mv, cap, c⟩ := e
    intro acc h1 h2
    have hc := H mv cap c (by simp)
    have hrest := fun mv2 cap2 c2 hm => H mv2 cap2 c2 (List.mem_cons_of_mem _ hm)
    simp only [nm_fold]
    exact ih hrest _ (le_trans h1 (le_max_left _ _))
      (max_le h2 (by linarith [hc.1]))

/-- Unfolding `negamaxSpec` at the horizon. -/
theorem negamaxSpec_horizon {d md : Nat} (t : GTree) (h : d = md) :
    negamaxSpec d md t = qvalue t := by
  rw [negamaxSpec, if_pos h]

/-- Unfolding `negamaxSpec` at a node with no legal moves below the
horizon. -/
theorem negamaxSpec_terminal {d md : Nat} (t : GTree) (h : d ≠ md)
    (h2 : gen_moves t = []) : negamaxSpec d md t = scoreEnd t.check d := by
  rw [negamaxSpec, if_neg h]
  split
  · rfl
  case _ e rest heq =>
    rw [h2] at heq
    cases heq

/-- Unfolding `negamaxSpec` at a node with at least one legal move below the
horizon. -/
theorem negamaxSpec_cons {d md : Nat} (t : GTree) (e : Move × Bool × GTree)
    (rest : List (Move × Bool × GTree)) (h : d ≠ md)
    (h2 : gen_moves t = e :: rest) :
    negamaxSpec d md t =
      nm_fold (d + 1) md rest (-negamaxSpec (d + 1) md e.2.2) := by
  rw [negamaxSpec, if_neg h]
  split
  case _ heq =>
    rw [h2] at heq
    cases heq
  case _ e2 rest2 heq =>
    rw [h2] at heq
    injection heq with he hrest
    subst he
    subst hrest
    rfl

/-- Unfolding `ab_search` at the horizon: the quiescence value is returned. -/
theorem ab_search_horizon (clock : Nat → Rat) (start_time time_lim : Rat)
    {d md : Nat} (a b : Rat) (bd : Board) (k : Nat) (st : SearchState)
    (h : d = md) :
    (ab_search clock start_time time_lim d md a b bd k st).1 =
      (quiescence_search a b bd).1 := by
  rw [ab_search, if_pos h]

/-- Unfolding `ab_search` at a node with no legal moves below the horizon:
the raw terminal score is returned, whatever the window. -/
theorem ab_search_terminal (clock : Nat → Rat) (start_time time_lim : Rat)
    {d md : Nat} (a b : Rat) (bd : Board) (k : Nat) (st : SearchState)
    (h : d ≠ md) (h2 : gen_moves bd.cur = []) :
    (ab_search clock start_time time_lim d md a b bd k st).1 =
      scoreEnd bd.cur.check d := by
  rw [ab_search, if_neg h]
  rw [if_pos (by rw [h2]; rfl)]

/-- Unfolding `ab_search` into the move loop at an interior node. -/
theorem ab_search_loop_eq (clock : Nat → Rat) (start_time time_lim : Rat)
    {d md : Nat} (a b : Rat) (bd : Board) (k : Nat) (st : SearchState)
    (h : d ≠ md) (h2 : gen_moves bd.cur ≠ []) :
    ab_search clock start_time time_lim d md a b bd k st =
      ab_loop clock start_time time_lim d md b (gen_moves bd.cur) a bd k st := by
  rw [ab_search, if_neg h]
  rw [if_neg (by simpa [List.isEmpty_iff] using h2)]

/-- The unpruned negamax value of a tree with bounded evaluations lies in
`[-(MATE_VALUE + md), MATE_VALUE + md]`. -/
theorem negamax_bound (md : Nat) : ∀ t : GTree, ∀ d : Nat, d ≤ md →
    evB t = true →
    -(MATE_VALUE + md) ≤ negamaxSpec d md t ∧
      negamaxSpec d md t ≤ MATE_VALUE + md := by
  refine GTree.strongInd ?_
  intro tu ev ck ch IH d hd hb
  have hmd0 : (0 : Rat) ≤ (md : Rat) := Nat.cast_nonneg md
  by_cases hdm : d = md
  · rw [negamaxSpec_horizon _ hdm]
    have h := qvalue_bound _ hb
    constructor <;> [linarith [h.1]; linarith [h.2]]
  · rcases hch : ch with _ | ⟨⟨mv, cap, c⟩, rest⟩
    · rw [negamaxSpec_terminal _ hdm (by rfl)]
      have hdr : (d : Rat) ≤ (md : Rat) := Nat.cast_le.2 hd
      have hd0 : (0 : Rat) ≤ (d : Rat) := Nat.cast_nonneg d
      rw [scoreEnd]
      dsimp only [GTree.check]
      split <;> constructor <;>
        simp only [MATE_VALUE] at * <;> linarith
    · have hd1 : d + 1 ≤ md := Nat.lt_of_le_of_ne hd hdm
      rw [evB_node] at hb
      have hbl : evBL ((mv, cap, c) :: rest) = true := by rw [← hch]; exact hb.2.2
      have hchild : ∀ mv2 cap2 c2, (mv2, cap2, c2) ∈ (mv, cap, c) :: rest →
          -(MATE_VALUE + md) ≤ negamaxSpec (d + 1) md c2 ∧
            negamaxSpec (d + 1) md c2 ≤ MATE_VALUE + md := by
        intro mv2 cap2 c2 hm
        refine IH mv2 cap2 c2 (by rw [hch]; exact hm) (d + 1) hd1 ?_
        exact evBL_mem hm hbl
      rw [negamaxSpec_cons _ (mv, cap, c) rest hdm (by rfl)]
      have hc0 := hchild mv cap c (by simp)
      exact nm_fold_bound (d + 1) md (MATE_VALUE + md) rest
        (fun mv2 cap2 c2 hm => hchild mv2 cap2 c2 (List.mem_cons_of_mem _ hm))
        _ (by dsimp only; linarith [hc0.2]) (by dsimp only; linarith [hc0.1])

/-- Window-clamp values satisfy the three Knuth-Moore conditions. -/
theorem clamp_cases (a b v r : Rat) (hab : a ≤ b) (h : r = min b (max a v)) :
    (a < v → v < b → r = v) ∧ (v ≤ a → r ≤ a) ∧ (b ≤ v → b ≤ r) := by
  subst h
  refine ⟨fun h1 h2 => ?_, fun h1 => ?_, fun h1 => ?_⟩
  · rw [max_eq_right (le_of_lt h1), min_eq_right (le_of_lt h2)]
  · rw [max_eq_left h1, min_eq_right hab]
  · rw [min_eq_left (le_trans h1 (le_trans (le_max_right a v) (le_refl _)))]

/-- The alpha-beta move loop computes the window-clamped running maximum of
the children's negamax values when the time budget never expires and each
recursive call satisfies the Knuth-Moore conditions. -/
theorem ab_loop_spec (clock : Nat → Rat) (start_time time_lim : Rat)
    (htime : ∀ n, clock n - start_time < time_lim) (d md : Nat) (b : Rat)
    (l : List (Move × Bool × GTree))
    (H : ∀ mv cap c, (mv, cap, c) ∈ l →
      ∀ (stk : List GTree) (a2 b2 : Rat) (k : Nat) (st : SearchState),
        a2 < b2 →
        (a2 < negamaxSpec (d + 1) md c → negamaxSpec (d + 1) md c < b2 →
          (ab_search clock start_time time_lim (d + 1) md a2 b2 ⟨c, stk⟩ k
            st).1 = negamaxSpec (d + 1) md c) ∧
        (negamaxSpec (d + 1) md c ≤ a2 →
          (ab_search clock start_time time_lim (d + 1) md a2 b2 ⟨c, stk⟩ k
            st).1 ≤ a2) ∧
        (b2 ≤ negamaxSpec (d + 1) md c →
          b2 ≤ (ab_search clock start_time time_lim (d + 1) md a2 b2 ⟨c, stk⟩
            k st).1)) :
    ∀ (alpha : Rat) (bd : Board) (k : Nat) (st : SearchState), alpha < b →
      (ab_loop clock start_time time_lim d md b l alpha bd k st).1 =
        min b (nm_fold (d + 1) md l alpha) := by
  induction l with
  | nil =>
    intro alpha bd k st hab
    simp only [ab_loop, nm_fold]
    exact (min_eq_right (le_of_lt hab)).symm
  | cons e rest ih =>
    obtain ⟨mv, cap, c⟩ := e
    intro alpha bd k st hab
    have hrest := fun mv2 cap2 c2 hm => H mv2 cap2 c2 (List.mem_cons_of_mem _ hm)
    have hc := H mv cap c (by simp) (bd.cur :: bd.stack) (-b) (-alpha) (k + 1)
      st (by linarith)
    simp only [ab_loop, Board.push]
    rw [if_neg (not_le.2 (htime k))]
    set vc := negamaxSpec (d + 1) md c with hvc
    set rc := (ab_search clock start_time time_lim (d + 1) md (-b) (-alpha)
      ⟨c, bd.cur :: bd.stack⟩ (k + 1) st).1 with hrc
    simp only [nm_fold, ← hvc]
    rcases le_or_lt vc (-b) with hcase1 | h1
    · have hrcle : rc ≤ -b := hc.2.1 hcase1
      rw [if_pos (by linarith : -rc ≥ b)]
      have hge : b ≤ nm_fold (d + 1) md rest (max alpha (-vc)) :=
        le_trans (le_trans (by linarith) (le_max_right alpha (-vc)))
          (le_nm_fold _ _ _ _)
      exact (min_eq_left hge).symm
    · rcases le_or_lt (-alpha) vc with hcase2 | h2
      · have hge : -alpha ≤ rc := hc.2.2 hcase2
        rw [if_neg (by linarith : ¬(-rc ≥ b)),
          if_neg (by linarith : ¬(-rc > alpha))]
        rw [ih hrest alpha _ _ _ hab]
        rw [max_eq_left (by linarith : -vc ≤ alpha)]
      · have heq : rc = vc := hc.1 h1 h2
        rw [if_neg (by rw [heq]; linarith : ¬(-rc ≥ b)),
          if_pos (by rw [heq]; linarith : -rc > alpha)]
        rw [ih hrest (-rc) _ _ _ (by rw [heq]; linarith)]
        rw [heq, max_eq_right (by linarith : alpha ≤ -vc)]

/-- Knuth-Moore correctness of the fail-hard alpha-beta search: when the time
budget never expires and all evaluations are bounded, the result is the true
negamax value whenever that value lies strictly inside the window, at most
`alpha` on fail-low, and at least `beta` on fail-high. -/
theorem ab_search_spec (clock : Nat → Rat) (start_time time_lim : Rat)
    (htime : ∀ n, clock n - start_time < time_lim) (md : Nat) :
    ∀ t : GTree, ∀ (d : Nat) (stk : List GTree) (a b : Rat) (k : Nat)
      (st : SearchState), d ≤ md → evB t = true → a < b →
      ((a < negamaxSpec d md t → negamaxSpec d md t < b →
        (ab_search clock start_time time_lim d md a b ⟨t, stk⟩ k st).1 =
          negamaxSpec d md t) ∧
       (negamaxSpec d md t ≤ a →
        (ab_search clock start_time time_lim d md a b ⟨t, stk⟩ k st).1 ≤ a) ∧
       (b ≤ negamaxSpec d md t →
        b ≤ (ab_search clock start_time time_lim d md a b ⟨t, stk⟩ k
          st).1)) := by
  refine GTree.strongInd ?_
  intro tu ev ck ch IH d stk a b k st hd hb hab
  by_cases hdm : d = md
  · rw [ab_search_horizon clock start_time time_lim a b _ k st hdm,
      negamaxSpec_horizon _ hdm]
    exact clamp_cases a b _ _ (le_of_lt hab)
      (quiescence_search_clamp (GTree.node tu ev ck ch) stk a b (le_of_lt hab))
  · rcases hch : ch with _ | ⟨⟨mv, cap, c⟩, rest⟩
    · rw [ab_search_terminal clock start_time time_lim a b _ k st hdm
        (by rfl), negamaxSpec_terminal _ hdm (by rfl)]
      exact ⟨fun _ _ => rfl, fun h1 => h1, fun h1 => h1⟩
    · have hd1 : d + 1 ≤ md := Nat.lt_of_le_of_ne hd hdm
      have hbl : evBL ((mv, cap, c) :: rest) = true := by
        rw [← hch]
        exact ((evB_node tu ev ck ch).1 hb).2.2
      have hH : ∀ mv2 cap2 c2, (mv2, cap2, c2) ∈ (mv, cap, c) :: rest →
          ∀ (stk2 : List GTree) (a2 b2 : Rat) (k2 : Nat) (st2 : SearchState),
            a2 < b2 →
            (a2 < negamaxSpec (d + 1) md c2 → negamaxSpec (d + 1) md c2 < b2 →
              (ab_search clock start_time time_lim (d + 1) md a2 b2 ⟨c2, stk2⟩
                k2 st2).1 = negamaxSpec (d + 1) md c2) ∧
            (negamaxSpec (d + 1) md c2 ≤ a2 →
              (ab_search clock start_time time_lim (d + 1) md a2 b2 ⟨c2, stk2⟩
                k2 st2).1 ≤ a2) ∧
            (b2 ≤ negamaxSpec (d + 1) md c2 →
              b2 ≤ (ab_search clock start_time time_lim (d + 1) md a2 b2
                ⟨c2, stk2⟩ k2 st2).1) := by
        intro mv2 cap2 c2 hm stk2 a2 b2 k2 st2 h2
        exact IH mv2 cap2 c2 (by rw [hch]; exact hm) (d + 1) stk2 a2 b2 k2 st2
          hd1 (evBL_mem hm hbl) h2
      have hloop := ab_loop_spec clock start_time time_lim htime d md b _ hH a
        ⟨GTree.node tu ev ck ((mv, cap, c) :: rest), stk⟩ k st hab
      rw [ab_search_loop_eq clock start_time time_lim a b _ k st hdm
        (by simp [gen_moves, GTree.children])]
      dsimp only [gen_moves, GTree.children]
      rw [hloop]
      have hv : nm_fold (d + 1) md ((mv, cap, c) :: rest) a =
          max a (negamaxSpec d md
            (GTree.node tu ev ck ((mv, cap, c) :: rest))) := by
        rw [negamaxSpec_cons _ (mv, cap, c) rest hdm (by rfl)]
        simp only [nm_fold]
        rw [nm_fold_max]
      rw [hv]
      exact clamp_cases a b _ _ (le_of_lt hab) rfl

/-- C2: for every position (with the evaluations bounded by the mate sentinel,
as every chess position is) and every fixed maximum depth, the alpha-beta
search called at the root with the full window `(NEG_MAX, POS_MAX)` and a time
budget that never expires returns exactly the value of the unpruned depth-`md`
negamax search with the quiescence evaluation at its leaves: pruning never
changes the returned value. -/
theorem c2_alphabeta_equals_minimax (clock : Nat → Rat)
    (start_time time_lim : Rat) (md : Nat) (t : GTree) (stk : List GTree)
    (k : Nat) (st : SearchState) (hb : evB t = true) (hmd : md ≤ 100000)
    (htime : ∀ n, clock n - start_time < time_lim) :
    (ab_search clock start_time time_lim 0 md NEG_MAX POS_MAX ⟨t, stk⟩ k
      st).1 = negamaxSpec 0 md t := by
  have hbound := negamax_bound md t 0 (Nat.zero_le md) hb
  have hmdr : (md : Rat) ≤ 100000 := by exact_mod_cast hmd
  have h1 : NEG_MAX < negamaxSpec 0 md t := by
    simp only [NEG_MAX, MATE_VALUE] at hbound ⊢
    linarith [hbound.1]
  have h2 : negamaxSpec 0 md t < POS_MAX := by
    simp only [POS_MAX, MATE_VALUE] at hbound ⊢
    linarith [hbound.2]
  have hab : NEG_MAX < POS_MAX := by norm_num [NEG_MAX, POS_MAX]
  exact (ab_search_spec clock start_time time_lim htime md t 0 stk NEG_MAX
    POS_MAX k st (Nat.zero_le md) hb hab).1 h1 h2

/-- C2 witness: the equality instantiated on the two-move position at depth 1
with a clock that never advances. -/
theorem c2_witness :
    evB tTwo = true ∧ (1 : Nat) ≤ 100000 ∧
      (ab_search clock0 0 1 0 1 NEG_MAX POS_MAX ⟨tTwo, []⟩ 0 initState).1 =
        negamaxSpec 0 1 tTwo := by
  refine ⟨?_, by norm_num, ?_⟩
  · simp [evB, evBL, tTwo, MATE_VALUE]
    norm_num
  · exact c2_alphabeta_equals_minimax clock0 0 1 1 tTwo [] 0 initState
      (by simp [evB, evBL, tTwo, MATE_VALUE]; norm_num) (by norm_num)
      (fun n => by norm_num [clock0])

/-- C6 counterexample: a position with no legal moves and the side to move in
check, reached at search ply 0 with the horizon also at 0: the search returns
the quiescence value `0` of the full window, not `-MATE_VALUE + 0`. -/
theorem c6_counterexample :
    GTree.check tMated = true ∧ gen_moves tMated = [] ∧
      (ab_search clock0 0 1 0 0 NEG_MAX POS_MAX ⟨tMated, []⟩ 0 initState).1 =
        0 ∧ (0 : Rat) ≠ -MATE_VALUE + 0 := by
  refine ⟨rfl, rfl, ?_, by norm_num [MATE_VALUE]⟩
  rw [@ab_search_horizon clock0 0 1 0 0 NEG_MAX POS_MAX ⟨tMated, []⟩ 0
    initState rfl]
  rw [quiescence_search]
  norm_num [tMated, GTree.ev, gen_moves_q, GTree.children, q_loop, NEG_MAX,
    POS_MAX]

/-- C6 (amended): at any search ply other than the horizon (where move
generation actually runs), a position with no legal moves scores
`-MATE_VALUE + d` when the side to move is in check and `0` otherwise,
whatever the window, the clock and the budget; and the negamax backup
`-scoreEnd` of the in-check terminal score is strictly larger for a mate in
fewer plies, so a shorter mate always receives the better score at the root.
At the horizon ply itself the quiescence value is returned instead. -/
theorem c6_amended :
    (∀ (clock : Nat → Rat) (start_time time_lim : Rat) (d md : Nat)
        (a b : Rat) (t : GTree) (stk : List GTree) (k : Nat)
        (st : SearchState), d ≠ md → gen_moves t = [] →
        (ab_search clock start_time time_lim d md a b ⟨t, stk⟩ k st).1 =
          (if t.check then -MATE_VALUE + (d : Rat) else 0)) ∧
    (∀ d1 d2 : Nat, d1 < d2 → -scoreEnd true d2 < -scoreEnd true d1) := by
  constructor
  · intro clock start_time time_lim d md a b t stk k st hdm hmoves
    rw [@ab_search_terminal clock start_time time_lim d md a b ⟨t, stk⟩ k st
      hdm hmoves]
    rw [scoreEnd]
  · intro d1 d2 h
    have hr : (d1 : Rat) < (d2 : Rat) := by exact_mod_cast h
    simp only [scoreEnd, if_pos]
    linarith

/-- C6 witness: the amended statement at ply 0 with horizon 1 on the mated
position, and the shorter-mate comparison at plies 1 and 2. -/
theorem c6_witness :
    (0 : Nat) ≠ 1 ∧ gen_moves tMated = [] ∧
      (ab_search clock0 0 1 0 1 0 1 ⟨tMated, []⟩ 0 initState).1 =
        -MATE_VALUE + ((0 : Nat) : Rat) ∧
      -scoreEnd true 2 < -scoreEnd true 1 := by
  refine ⟨by norm_num, rfl, ?_, c6_amended.2 1 2 (by norm_num)⟩
  have h := c6_amended.1 clock0 0 1 0 1 0 1 tMated [] 0 initState
    (by norm_num) rfl
  simpa [tMated, GTree.check] using h

/-- Membership extraction for `noStuckL`. -/
theorem noStuckL_mem {k : Nat} {l : List (Move × Bool × GTree)} {mv : Move}
    {cap : Bool} {c : GTree} (hm : (mv, cap, c) ∈ l)
    (h : noStuckL k l = true) : noStuck k c = true := by
  induction l with
  | nil => cases hm
  | cons e rest ih =>
    obtain ⟨mv2, cap2, c2⟩ := e
    rw [noStuckL, Bool.and_eq_true] at h
    rcases List.mem_cons.1 hm with h1 | h1
    · cases h1
      exact h.1
    · exact ih h1 h.2

/-- Characterisation of `noStuck` at a positive horizon distance. -/
theorem noStuck_succ {k : Nat} {t : GTree} :
    noStuck (k + 1) t = true ↔
      gen_moves t ≠ [] ∧ noStuckL k (gen_moves t) = true := by
  rw [noStuck]
  simp [Bool.and_eq_true, List.isEmpty_iff]

/-- The alpha-beta move loop stays inside the window `[alpha, beta]` when
every recursive call does, on every exit path including the time break. -/
theorem ab_loop_window (clock : Nat → Rat) (start_time time_lim : Rat)
    (d md : Nat) (b : Rat) (l : List (Move × Bool × GTree))
    (H : ∀ mv cap c, (mv, cap, c) ∈ l →
      ∀ (stk : List GTree) (a2 b2 : Rat) (k : Nat) (st : SearchState),
        a2 ≤ b2 →
        a2 ≤ (ab_search clock start_time time_lim (d + 1) md a2 b2 ⟨c, stk⟩ k
          st).1 ∧
        (ab_search clock start_time time_lim (d + 1) md a2 b2 ⟨c, stk⟩ k
          st).1 ≤ b2) :
    ∀ (alpha : Rat) (bd : Board) (k : Nat) (st : SearchState), alpha ≤ b →
      alpha ≤ (ab_loop clock start_time time_lim d md b l alpha bd k st).1 ∧
      (ab_loop clock start_time time_lim d md b l alpha bd k st).1 ≤ b := by
  induction l with
  | nil =>
    intro alpha bd k st hab
    simp only [ab_loop]
    exact ⟨le_refl _, hab⟩
  | cons e rest ih =>
    obtain ⟨mv, cap, c⟩ := e
    intro alpha bd k st hab
    have hrest := fun mv2 cap2 c2 hm => H mv2 cap2 c2 (List.mem_cons_of_mem _ hm)
    have hc := H mv cap c (by simp) (bd.cur :: bd.stack) (-b) (-alpha) (k + 1)
      st (by linarith)
    simp only [ab_loop, Board.push]
    split
    · exact ⟨le_refl _, hab⟩
    · set rc := (ab_search clock start_time time_lim (d + 1) md (-b) (-alpha)
        ⟨c, bd.cur :: bd.stack⟩ (k + 1) st).1 with hrc
      split
      · exact ⟨hab, le_refl _⟩
      case isFalse hncut =>
        push_neg at hncut
        split
        case isTrue hup =>
          constructor
          · exact le_trans (le_of_lt hup) (ih hrest (-rc) _ _ _
              (le_of_lt hncut)).1
          · exact (ih hrest (-rc) _ _ _ (le_of_lt hncut)).2
        case isFalse hnup =>
          exact ih hrest alpha _ _ _ hab

/-- The alpha-beta search stays inside the window `[alpha, beta]` when no
position strictly before the horizon is stuck. -/
theorem ab_search_window (clock : Nat → Rat) (start_time time_lim : Rat)
    (md : Nat) :
    ∀ t : GTree, ∀ (d : Nat) (stk : List GTree) (a b : Rat) (k : Nat)
      (st : SearchState), a ≤ b → d ≤ md → noStuck (md - d) t = true →
      a ≤ (ab_search clock start_time time_lim d md a b ⟨t, stk⟩ k st).1 ∧
      (ab_search clock start_time time_lim d md a b ⟨t, stk⟩ k st).1 ≤ b := by
  refine GTree.strongInd ?_
  intro tu ev ck ch IH d stk a b k st hab hd hstuck
  by_cases hdm : d = md
  · rw [@ab_search_horizon clock start_time time_lim d md a b
      ⟨GTree.node tu ev ck ch, stk⟩ k st hdm]
    rw [quiescence_search_clamp (GTree.node tu ev ck ch) stk a b hab]
    constructor
    · exact le_min hab (le_max_left _ _)
    · exact min_le_left _ _
  · have hlt : d < md := Nat.lt_of_le_of_ne hd hdm
    have hsub : md - d = (md - (d + 1)) + 1 := by omega
    rw [hsub] at hstuck
    rw [noStuck_succ] at hstuck
    dsimp only [gen_moves, GTree.children] at hstuck
    rcases hch : ch with _ | ⟨⟨mv, cap, c⟩, rest⟩
    · rw [hch] at hstuck
      exact absurd rfl hstuck.1
    · subst hch
      rw [@ab_search_loop_eq clock start_time time_lim d md a b
        ⟨GTree.node tu ev ck ((mv, cap, c) :: rest), stk⟩ k st hdm
        (by dsimp only [gen_moves, GTree.children]; simp)]
      dsimp only [gen_moves, GTree.children]
      refine ab_loop_window clock start_time time_lim d md b _
        (fun mv2 cap2 c2 hm stk2 a2 b2 k2 st2 h2 => ?_) a _ k st hab
      refine IH mv2 cap2 c2 hm (d + 1) stk2 a2 b2 k2 st2 h2 hlt ?_
      exact noStuckL_mem hm hstuck.2

/-- C10 counterexample: with window `(0, 1)` a stuck in-check position below
the horizon returns the raw terminal score `-100000`, far below `alpha` — so
the alpha-beta result does not always lie in `[alpha, beta]`. -/
theorem c10_counterexample :
    (0 : Rat) ≤ 1 ∧
      (ab_search clock0 0 1 0 1 0 1 ⟨tMatedNarrow, []⟩ 0 initState).1 =
        -100000 ∧
      ¬((0 : Rat) ≤ (ab_search clock0 0 1 0 1 0 1 ⟨tMatedNarrow, []⟩ 0
        initState).1) := by
  have h := @ab_search_terminal clock0 0 1 0 1 0 1 ⟨tMatedNarrow, []⟩ 0
    initState (by norm_num) rfl
  have h2 : (ab_search clock0 0 1 0 1 0 1 ⟨tMatedNarrow, []⟩ 0
      initState).1 = -100000 := by
    rw [h]
    norm_num [tMatedNarrow, GTree.check, scoreEnd, MATE_VALUE]
  refine ⟨by norm_num, h2, ?_⟩
  rw [h2]
  norm_num

/-- C10 (amended): for `alpha ≤ beta` the quiescence value always lies in the
closed interval `[alpha, beta]`; the alpha-beta value likewise lies in
`[alpha, beta]` provided no position strictly before the horizon is stuck —
a stuck node returns the raw terminal score, which may lie outside the
window. -/
theorem c10_amended :
    (∀ (a b : Rat) (bd : Board), a ≤ b →
      a ≤ (quiescence_search a b bd).1 ∧ (quiescence_search a b bd).1 ≤ b) ∧
    (∀ (clock : Nat → Rat) (start_time time_lim : Rat) (d md : Nat)
        (a b : Rat) (t : GTree) (stk : List GTree) (k : Nat)
        (st : SearchState), a ≤ b → d ≤ md → noStuck (md - d) t = true →
        a ≤ (ab_search clock start_time time_lim d md a b ⟨t, stk⟩ k st).1 ∧
        (ab_search clock start_time time_lim d md a b ⟨t, stk⟩ k st).1 ≤ b) := by
  constructor
  · intro a b bd hab
    obtain ⟨cur, stk⟩ := bd
    rw [quiescence_search_clamp cur stk a b hab]
    exact ⟨le_min hab (le_max_left _ _), min_le_left _ _⟩
  · intro clock start_time time_lim d md a b t stk k st hab hd hstuck
    exact ab_search_window clock start_time time_lim md t d stk a b k st hab
      hd hstuck

/-- C10 witness: both parts instantiated on the two-move position with the
window `(0, 10)` at depth 1. -/
theorem c10_witness :
    (0 : Rat) ≤ 10 ∧ (0 : Nat) ≤ 1 ∧ noStuck (1 - 0) tTwo = true ∧
      (0 ≤ (quiescence_search 0 10 ⟨tTwo, []⟩).1 ∧
        (quiescence_search 0 10 ⟨tTwo, []⟩).1 ≤ 10) ∧
      (0 ≤ (ab_search clock0 0 1 0 1 0 10 ⟨tTwo, []⟩ 0 initState).1 ∧
        (ab_search clock0 0 1 0 1 0 10 ⟨tTwo, []⟩ 0 initState).1 ≤ 10) := by
  have hstuck : noStuck (1 - 0) tTwo = true := by
    rw [noStuck]
    simp [noStuckL, noStuck, gen_moves, tTwo, GTree.children]
  refine ⟨by norm_num, by norm_num, hstuck, ?_, ?_⟩
  · exact c10_amended.1 0 10 ⟨tTwo, []⟩ (by norm_num)
  · exact c10_amended.2 clock0 0 1 0 1 0 10 tTwo [] 0 initState (by norm_num)
      (by norm_num) hstuck

/-- C3 (code bug): the evaluator's black pawn-material term reads the white
pawn count (`len(wps)` on source line 235).  On the position with one black
pawn and no white pawns the term is `0`, although the black pawn count times
the pawn value is `100`; consequently adding a black pawn on a square of zero
positional value does not change the evaluation at all. -/
theorem c3_black_pawn_material_bug :
    blackpawns posKingsPawn = 0 ∧ posKingsPawn.bps.card = 1 ∧
      (posKingsPawn.bps.card : Int) * PAWN_VALUE = 100 ∧
      eval posKingsPawn = eval posKings := by
  have he1 : (endgamew posKingsPawn && endgameb posKingsPawn) = true := by
    decide
  have he2 : (endgamew posKings && endgameb posKings) = true := by decide
  have hk1 : positionalValue 4 .king true true = -30 := by decide
  have hk2 : positionalValue 60 .king false true = -30 := by decide
  have hp1 : positionalValue 32 .pawn false true = 0 := by decide
  refine ⟨by decide, by decide, by decide, ?_⟩
  simp only [eval, he1, he2]
  simp only [posKings, posKingsPawn, whiteeval, blackeval, whitematerial,
    blackmaterial, whitepawns, blackpawns, if_true]
  simp only [Finset.sum_empty, Finset.sum_singleton, Finset.card_empty,
    Finset.card_singleton, hk1, hk2, hp1]

/-- The image of a square set under the mirror has the same cardinality. -/
theorem card_image_rev (s : Finset (Fin 64)) :
    (s.image Fin.rev).card = s.card :=
  Finset.card_image_of_injective s Fin.rev_injective

/-- A sum over a mirrored square set is the sum of the mirrored values. -/
theorem sum_image_rev (s : Finset (Fin 64)) (f : Fin 64 → Int) :
    Finset.sum (s.image Fin.rev) f = Finset.sum s fun i => f (Fin.rev i) :=
  Finset.sum_image fun x _ y _ h => Fin.rev_injective h

/-- Mirroring the square turns a white table lookup into a black one. -/
theorem positionalValue_rev_white (s : Fin 64) (pc : Piece) (e : Bool) :
    positionalValue (Fin.rev s) pc true e = positionalValue s pc false e := by
  cases pc <;> simp [positionalValue]

/-- Mirroring the square turns a black table lookup into a white one. -/
theorem positionalValue_rev_black (s : Fin 64) (pc : Piece) (e : Bool) :
    positionalValue (Fin.rev s) pc false e = positionalValue s pc true e := by
  cases pc <;> simp [positionalValue, Fin.rev_rev]

/-- White non-pawn material of the mirrored position is black's original. -/
theorem whitematerial_mirror (p : Position) :
    whitematerial (mirrorPos p) = blackmaterial p := by
  simp [whitematerial, blackmaterial, mirrorPos, card_image_rev]

/-- Black non-pawn material of the mirrored position is white's original. -/
theorem blackmaterial_mirror (p : Position) :
    blackmaterial (mirrorPos p) = whitematerial p := by
  simp [whitematerial, blackmaterial, mirrorPos, card_image_rev]

/-- The white endgame flag of the mirrored position is black's original. -/
theorem endgamew_mirror (p : Position) :
    endgamew (mirrorPos p) = endgameb p := by
  have h1 : (mirrorPos p).wqs = p.bqs.image Fin.rev := rfl
  simp only [endgamew, endgameb, whitematerial_mirror, h1, card_image_rev]

/-- The black endgame flag of the mirrored position is white's original. -/
theorem endgameb_mirror (p : Position) :
    endgameb (mirrorPos p) = endgamew p := by
  have h1 : (mirrorPos p).bqs = p.wqs.image Fin.rev := rfl
  simp only [endgamew, endgameb, blackmaterial_mirror, h1, card_image_rev]

/-- The difference of the two accumulators flips sign under mirroring: the
pawn-count quirk of `blackpawns` cancels inside each side's difference. -/
theorem eval_diff_mirror (p : Position) (e : Bool) :
    whiteeval (mirrorPos p) e - blackeval (mirrorPos p) e =
      blackeval p e - whiteeval p e := by
  simp only [whiteeval, blackeval, whitematerial, blackmaterial, whitepawns,
    blackpawns, mirrorPos]
  simp only [sum_image_rev, card_image_rev, positionalValue_rev_white,
    positionalValue_rev_black]
  push_cast
  ring

/-- C5: the evaluator is antisymmetric under colour flip — evaluating the
position obtained by mirroring the piece placement, swapping the colours and
giving the move to the other side yields the same side-to-move-relative score
as the original position. -/
theorem c5_eval_mirror_antisymmetric (p : Position) :
    eval (mirrorPos p) = eval p := by
  have hmt : (mirrorPos p).turn = !p.turn := rfl
  have he : (endgamew (mirrorPos p) && endgameb (mirrorPos p)) =
      (endgamew p && endgameb p) := by
    rw [endgamew_mirror, endgameb_mirror, Bool.and_comm]
  have hdiff := eval_diff_mirror p (endgamew p && endgameb p)
  simp only [eval, he, hmt]
  cases hp : p.turn
  · simp only [Bool.not_false, if_true]
    exact hdiff
  · simp only [Bool.not_true, Bool.false_eq_true, if_false, if_true]
    linarith [hdiff]

/-- Evaluation of the quiescence search on the one-move position with the
full window: no captures, stand pat at the evaluation `0`. -/
theorem quiescence_tOne :
    quiescence_search NEG_MAX POS_MAX ⟨tOne, []⟩ = (0, ⟨tOne, []⟩) := by
  rw [quiescence_search]
  norm_num [tOne, GTree.ev, gen_moves_q, GTree.children, q_loop, NEG_MAX,
    POS_MAX]

/-- C7 (code bug): on a position with one legal move, in normal mode with a
6.5-second clock (per-move budget `0.2` seconds), a clock run in which the
budget is exhausted right after depth 0 makes `search` return
`chess.Move.null()`: depth 0 runs the bare quiescence search and records no
move, and `best_move[d-1]` with `d = 0` wraps around to the untouched last
slot of the array.  The null move is not one of the position's legal moves. -/
theorem c7_null_move_returned :
    search clockBudget (some (13 / 2)) (some 10) tOne = some ⟨Move.null⟩ ∧
      (∀ e ∈ gen_moves tOne, e.1 ≠ Move.null) := by
  constructor
  · have hget : get_c_time_left tOne.turn (some (13 / 2)) (some 10) =
        some (13 / 2) := by
      norm_num [get_c_time_left, truthy, tOne, GTree.turn]
    have hab : ∀ (tl : Rat) (k : Nat) (st : SearchState),
        ab_search clockBudget 0 tl 0 0 NEG_MAX POS_MAX ⟨tOne, []⟩ k st =
          (0, ⟨tOne, []⟩, k, st) := by
      intro tl k st
      rw [ab_search]
      norm_num [quiescence_tOne]
    have hrange : List.range (MAXDEPTH + 1) =
        0 :: [1, 2, 3, 4, 5, 6, 7, 8, 9, 10] := by decide
    rw [search, hget]
    dsimp only
    rw [if_neg (by norm_num)]
    rw [hrange]
    rw [id_loop, hget]
    dsimp only
    norm_num [ltMulSqrt, pyGet, clockBudget, hab, initState, MAXDEPTH,
      EXPECTED_MOVES, List.getD]
  · decide

/-- Evaluation of the emergency-mode depth-2 search on the one-move position:
the single reply is a stuck quiet position scoring `0`, so the root records
`Move.m 1` into `best_move[2]`. -/
theorem ab_search_emergency_tEmg (clock : Nat → Rat) (hc1 : clock 1 = 0) :
    ab_search clock 0 100000 0 2 NEG_MAX POS_MAX ⟨tEmg, []⟩ 1 initState =
      (0, ⟨tEmg, []⟩, 2,
        ⟨(List.replicate 11 Move.null).set 2 (Move.m 1),
         (List.replicate 11 (0 : Rat)).set 2 0⟩) := by
  have hchild : ab_search clock 0 100000 1 2 (-POS_MAX) (-NEG_MAX)
      ⟨tEmgChild, [tEmg]⟩ 2 initState =
        (0, ⟨tEmgChild, [tEmg]⟩, 2, initState) := by
    rw [ab_search]
    norm_num [tEmgChild, gen_moves, GTree.children, GTree.check, scoreEnd]
  rw [ab_search]
  rw [if_neg (by norm_num)]
  dsimp only
  rw [show gen_moves tEmg = [(Move.m 1, false, tEmgChild)] from rfl]
  rw [if_neg (by norm_num)]
  rw [ab_loop]
  rw [if_neg (by rw [hc1]; norm_num)]
  dsimp only [Board.push]
  simp only [show (0 : Nat) + 1 = 1 from rfl, show (1 : Nat) + 1 = 2 from rfl]
  rw [hchild]
  dsimp only [Board.pop]
  rw [if_neg (by norm_num [NEG_MAX, POS_MAX]),
    if_pos (by norm_num [NEG_MAX, POS_MAX])]
  simp only [if_true]
  rw [ab_loop]
  norm_num [initState, MAXDEPTH]

/-- Evaluation of the quiescence search on the emergency-scenario position:
its only move is not a capture, so the capture list is empty. -/
theorem quiescence_tEmg :
    quiescence_search NEG_MAX POS_MAX ⟨tEmg, []⟩ = (0, ⟨tEmg, []⟩) := by
  rw [quiescence_search]
  norm_num [tEmg, GTree.ev, gen_moves_q, GTree.children, q_loop, NEG_MAX,
    POS_MAX]

/-- C8 counterexample: white to move with `white_clock = 0` (remaining clock
at most 5 seconds) and `black_clock = 100`.  Python's truthiness makes
`get_c_time_left` skip the zero white clock and return the black clock, so
the engine enters normal mode, exhausts the per-move budget after depth 0 and
returns the null move — while the emergency depth-2 search of the claim would
have recorded and returned the legal move `Move.m 1`. -/
theorem c8_counterexample :
    (0 : Rat) ≤ 5 ∧
      search clockEmg (some 0) (some 100) tEmg = some ⟨Move.null⟩ ∧
      pyGet ((ab_search clockEmg (clockEmg 0) 100000 0 2 NEG_MAX POS_MAX
        ⟨tEmg, []⟩ 1 initState).2.2.2).best_move 2 = Move.m 1 ∧
      Move.m 1 ≠ Move.null := by
  refine ⟨by norm_num, ?_, ?_, by decide⟩
  · have hget : get_c_time_left tEmg.turn (some 0) (some 100) = some 100 := by
      norm_num [get_c_time_left, truthy, tEmg, GTree.turn]
    have hab : ∀ (tl : Rat) (k : Nat) (st : SearchState),
        ab_search clockEmg 0 tl 0 0 NEG_MAX POS_MAX ⟨tEmg, []⟩ k st =
          (0, ⟨tEmg, []⟩, k, st) := by
      intro tl k st
      rw [ab_search]
      norm_num [quiescence_tEmg]
    have hrange : List.range (MAXDEPTH + 1) =
        0 :: [1, 2, 3, 4, 5, 6, 7, 8, 9, 10] := by decide
    rw [search, hget]
    dsimp only
    rw [if_neg (by norm_num)]
    rw [hrange]
    rw [id_loop, hget]
    dsimp only
    norm_num [ltMulSqrt, pyGet, clockEmg, hab, initState, MAXDEPTH,
      EXPECTED_MOVES, List.getD]
  · have h0 : clockEmg 0 = 0 := by norm_num [clockEmg]
    rw [h0, ab_search_emergency_tEmg clockEmg (by norm_num [clockEmg])]
    decide

/-- C8 (amended): when the side to move's remaining clock is positive and at
most 5 seconds, `search` takes the emergency branch: it runs exactly one
fixed-depth search with maximum depth 2 and the 100000-second budget, and
unconditionally returns the move that search recorded in `best_move[2]`.  (A
zero clock reading is falsy in Python and falls through to the other clock,
see the counterexample.) -/
theorem c8_amended (clock : Nat → Rat) (wc bc : Option Rat) (x : Rat)
    (t : GTree) (hx0 : 0 < x) (hx5 : x ≤ 5)
    (hside : (t.turn = true ∧ wc = some x) ∨ (t.turn = false ∧ bc = some x)) :
    search clock wc bc t =
      some ⟨pyGet ((ab_search clock (clock 0) 100000 0 2 NEG_MAX POS_MAX
        ⟨t, []⟩ 1 initState).2.2.2).best_move 2⟩ := by
  have hxne : x ≠ 0 := ne_of_gt hx0
  have hget : get_c_time_left t.turn wc bc = some x := by
    rcases hside with ⟨ht, hw⟩ | ⟨ht, hb⟩
    · rw [get_c_time_left, ht, hw]
      simp [truthy, hxne]
    · rw [get_c_time_left, ht, hb]
      simp [truthy, hxne]
  rw [search, hget]
  dsimp only
  rw [if_pos hx5]

/-- C8 witness: the amended statement on the one-move position with one
second on the side to move's clock. -/
theorem c8_witness :
    (0 : Rat) < 1 ∧ (1 : Rat) ≤ 5 ∧ GTree.turn tEmg = true ∧
      search clock0 (some 1) none tEmg =
        some ⟨pyGet ((ab_search clock0 (clock0 0) 100000 0 2 NEG_MAX POS_MAX
          ⟨tEmg, []⟩ 1 initState).2.2.2).best_move 2⟩ :=
  ⟨by norm_num, by norm_num, rfl,
    c8_amended clock0 (some 1) none 1 tEmg (by norm_num) (by norm_num)
      (Or.inl ⟨rfl, rfl⟩)⟩

/-- Evaluation of the quiescence search on the affordability-scenario root. -/
theorem quiescence_tAff :
    quiescence_search NEG_MAX POS_MAX ⟨tAff, []⟩ = (0, ⟨tAff, []⟩) := by
  rw [quiescence_search]
  norm_num [tAff, GTree.ev, gen_moves_q, GTree.children, q_loop, NEG_MAX,
    POS_MAX]

/-- Evaluation of the quiescence search on the affordability-scenario reply
position in the negated window. -/
theorem quiescence_tAffChild :
    quiescence_search (-POS_MAX) (-NEG_MAX) ⟨tAffChild, [tAff]⟩ =
      (-7, ⟨tAffChild, [tAff]⟩) := by
  rw [quiescence_search]
  norm_num [tAffChild, GTree.ev, gen_moves_q, GTree.children, q_loop, NEG_MAX,
    POS_MAX]

/-- Depth-0 search on the affordability-scenario root is the bare quiescence
value: nothing is recorded and no clock sample is consumed. -/
theorem ab_tAff_d0 : ∀ (tl : Rat) (k : Nat) (st : SearchState),
    ab_search clockAff 0 tl 0 0 NEG_MAX POS_MAX ⟨tAff, []⟩ k st =
      (0, ⟨tAff, []⟩, k, st) := by
  intro tl k st
  rw [ab_search]
  norm_num [quiescence_tAff]

/-- Depth-1 search on the affordability-scenario root: the single reply
stands pat at `-7`, so the root records `Move.m 1` with value `7` into slot
1 and one clock sample is consumed. -/
theorem ab_tAff_d1 :
    ab_search clockAff 0 (1 / 5) 0 1 NEG_MAX POS_MAX ⟨tAff, []⟩ 5
      ⟨List.replicate 11 Move.null, List.replicate 11 0⟩ =
      (7, ⟨tAff, []⟩, 6,
        ⟨(List.replicate 11 Move.null).set 1 (Move.m 1),
         (List.replicate 11 (0 : Rat)).set 1 7⟩) := by
  have hchild : ab_search clockAff 0 (1 / 5) 1 1 (-POS_MAX) (-NEG_MAX)
      ⟨tAffChild, [tAff]⟩ 6
      ⟨List.replicate 11 Move.null, List.replicate 11 0⟩ =
        (-7, ⟨tAffChild, [tAff]⟩, 6,
          ⟨List.replicate 11 Move.null, List.replicate 11 0⟩) := by
    rw [ab_search]
    norm_num [quiescence_tAffChild]
  rw [ab_search]
  rw [if_neg (by norm_num)]
  dsimp only
  rw [show gen_moves tAff = [(Move.m 1, false, tAffChild)] from rfl]
  rw [if_neg (by norm_num)]
  rw [ab_loop]
  rw [if_neg (by norm_num [clockAff])]
  dsimp only [Board.push]
  simp only [show (0 : Nat) + 1 = 1 from rfl, show (5 : Nat) + 1 = 6 from rfl]
  rw [hchild]
  dsimp only [Board.pop]
  rw [if_neg (by norm_num [NEG_MAX, POS_MAX]),
    if_pos (by norm_num [NEG_MAX, POS_MAX])]
  simp only [if_true]
  rw [ab_loop]
  norm_num

/-- Depth-2 search on the affordability-scenario root: the reply position is
stuck (no legal moves) below the horizon and scores `0`; the root records
`Move.m 1` with value `0` into slot 2. -/
theorem ab_tAff_d2 :
    ab_search clockAff 0 (1 / 5) 0 2 NEG_MAX POS_MAX ⟨tAff, []⟩ 9
      ⟨(List.replicate 11 Move.null).set 1 (Move.m 1),
       (List.replicate 11 (0 : Rat)).set 1 7⟩ =
      (0, ⟨tAff, []⟩, 10,
        ⟨((List.replicate 11 Move.null).set 1 (Move.m 1)).set 2 (Move.m 1),
         ((List.replicate 11 (0 : Rat)).set 1 7).set 2 0⟩) := by
  have hchild : ab_search clockAff 0 (1 / 5) 1 2 (-POS_MAX) (-NEG_MAX)
      ⟨tAffChild, [tAff]⟩ 10
      ⟨(List.replicate 11 Move.null).set 1 (Move.m 1),
       (List.replicate 11 (0 : Rat)).set 1 7⟩ =
        (0, ⟨tAffChild, [tAff]⟩, 10,
          ⟨(List.replicate 11 Move.null).set 1 (Move.m 1),
           (List.replicate 11 (0 : Rat)).set 1 7⟩) := by
    rw [ab_search]
    rw [if_neg (by norm_num)]
    dsimp only
    rw [show gen_moves tAffChild = [] from rfl]
    norm_num [tAffChild, GTree.check, scoreEnd]
  rw [ab_search]
  rw [if_neg (by norm_num)]
  dsimp only
  rw [show gen_moves tAff = [(Move.m 1, false, tAffChild)] from rfl]
  rw [if_neg (by norm_num)]
  rw [ab_loop]
  rw [if_neg (by norm_num [clockAff])]
  dsimp only [Board.push]
  simp only [show (0 : Nat) + 1 = 1 from rfl, show (9 : Nat) + 1 = 10 from rfl]
  rw [hchild]
  dsimp only [Board.pop]
  rw [if_neg (by norm_num [NEG_MAX, POS_MAX]),
    if_pos (by norm_num [NEG_MAX, POS_MAX])]
  simp only [if_true]
  rw [ab_loop]
  norm_num

/-- C9 counterexample: with a 6.5-second clock (budget `0.2` seconds) and the
`clockAff` run, depth 0 costs `0.15` seconds and ends with `0.16` seconds
elapsed, so by the claim's reckoning depth 1 is unaffordable
(`0.2 - 0.16 < 0.15 * sqrt 1`) and the move recorded at depth 0 — the null
move, since depth 0 records nothing — should be returned.  The code instead
compares the full budget (`0.2 < 0.15` fails, because its elapsed-time term
is identically zero), runs depths 1 and 2, and returns the real move
`Move.m 1` recorded at depth 1. -/
theorem c9_counterexample :
    search clockAff (some (13 / 2)) (some 10) tAff = some ⟨Move.m 1⟩ ∧
      ltMulSqrt (13 / 2 / EXPECTED_MOVES - clockAff 3)
        (clockAff 2 - clockAff 1) 1 = true ∧
      Move.m 1 ≠ Move.null := by
  refine ⟨?_, by norm_num [ltMulSqrt, EXPECTED_MOVES, clockAff], by decide⟩
  have hget : get_c_time_left tAff.turn (some (13 / 2)) (some 10) =
      some (13 / 2) := by
    norm_num [get_c_time_left, truthy, tAff, GTree.turn]
  have hrange : List.range (MAXDEPTH + 1) =
      0 :: [1, 2, 3, 4, 5, 6, 7, 8, 9, 10] := by decide
  rw [search, hget]
  dsimp only
  rw [if_neg (by norm_num)]
  rw [hrange]
  simp only [show clockAff 0 = 0 from by norm_num [clockAff], initState,
    show MAXDEPTH + 1 = 11 from rfl]
  rw [id_loop, hget]
  dsimp only
  rw [show (13 : Rat) / 2 / EXPECTED_MOVES = 1 / 5 from by
    norm_num [EXPECTED_MOVES]]
  rw [show pyGet (List.replicate 11 (0 : Rat)) (((0 : Nat) : Int) - 1) = 0
    from rfl]
  rw [if_neg (by norm_num [ltMulSqrt])]
  rw [show (1 : Nat) + 1 = 2 from rfl]
  rw [ab_tAff_d0]
  dsimp only
  rw [show clockAff 2 - clockAff 1 = 3 / 20 from by norm_num [clockAff]]
  rw [if_neg (by norm_num [clockAff])]
  rw [show (2 : Nat) + 2 = 4 from rfl]
  rw [id_loop, hget]
  dsimp only
  rw [show (13 : Rat) / 2 / EXPECTED_MOVES = 1 / 5 from by
    norm_num [EXPECTED_MOVES]]
  rw [show pyGet ((List.replicate 11 (0 : Rat)).set 0 (3 / 20))
    (((1 : Nat) : Int) - 1) = 3 / 20 from rfl]
  rw [if_neg (by norm_num [ltMulSqrt, tAff, GTree.children])]
  rw [show (4 : Nat) + 1 = 5 from rfl]
  rw [ab_tAff_d1]
  dsimp only
  rw [show clockAff 6 - clockAff 4 = 1 / 100 from by norm_num [clockAff]]
  rw [if_neg (by norm_num [clockAff])]
  rw [show (6 : Nat) + 2 = 8 from rfl]
  rw [id_loop, hget]
  dsimp only
  rw [show (13 : Rat) / 2 / EXPECTED_MOVES = 1 / 5 from by
    norm_num [EXPECTED_MOVES]]
  rw [show pyGet (((List.replicate 11 (0 : Rat)).set 0 (3 / 20)).set 1
    (1 / 100)) (((2 : Nat) : Int) - 1) = 1 / 100 from rfl]
  rw [if_neg (by norm_num [ltMulSqrt, tAff, GTree.children])]
  rw [show (8 : Nat) + 1 = 9 from rfl]
  rw [ab_tAff_d2]
  dsimp only
  rw [if_pos (by norm_num [clockAff])]
  rfl

/-- C9 (amended): before starting depth `d`, the driver's affordability check
compares the full per-move budget `remainingClock / 32.5` — the elapsed-time
correction `- base + get_c_time_left()` is identically zero, because the
clock snapshot is immutable during the move and the second read returns the
same value — against the previous depth's measured duration
`depth_time[d-1]` scaled by the square root of the current legal-move count;
when the scaled cost exceeds the budget, depth `d` is not started and the
move recorded at depth `d - 1` is returned (for `d = 0` the Python index
`-1` reads the last, untouched slot). -/
theorem c9_amended (clock : Nat → Rat) (start_time base_time_left : Rat)
    (turn : Bool) (wc bc : Option Rat) (d : Nat) (ds : List Nat)
    (depth_time : List Rat) (bd : Board) (k : Nat) (st : SearchState)
    (hget : get_c_time_left turn wc bc = some base_time_left)
    (hcond : ltMulSqrt (base_time_left / EXPECTED_MOVES)
      (pyGet depth_time ((d : Int) - 1)) bd.cur.children.length = true) :
    id_loop clock start_time base_time_left turn wc bc (d :: ds) depth_time
      bd k st = some ⟨pyGet st.best_move ((d : Int) - 1)⟩ := by
  rw [id_loop, hget]
  dsimp only
  rw [show base_time_left / EXPECTED_MOVES - base_time_left + base_time_left
    = base_time_left / EXPECTED_MOVES from by ring]
  rw [if_pos hcond]

/-- C9 witness: the amended statement with a 10-second clock and a recorded
depth-0 time of 100 seconds: depth 1 is skipped. -/
theorem c9_witness :
    get_c_time_left true (some 10) none = some 10 ∧
      ltMulSqrt ((10 : Rat) / EXPECTED_MOVES)
        (pyGet ((List.replicate 11 (0 : Rat)).set 0 100)
          (((1 : Nat) : Int) - 1)) (Board.mk tEmg []).cur.children.length =
        true ∧
      id_loop clock0 0 10 true (some 10) none [1]
        ((List.replicate 11 (0 : Rat)).set 0 100) ⟨tEmg, []⟩ 0 initState =
        some ⟨pyGet initState.best_move (((1 : Nat) : Int) - 1)⟩ := by
  have h1 : get_c_time_left true (some 10) none = some 10 := by
    norm_num [get_c_time_left, truthy]
  have h2 : ltMulSqrt ((10 : Rat) / EXPECTED_MOVES)
      (pyGet ((List.replicate 11 (0 : Rat)).set 0 100)
        (((1 : Nat) : Int) - 1)) (Board.mk tEmg []).cur.children.length =
      true := by
    rw [show pyGet ((List.replicate 11 (0 : Rat)).set 0 100)
      (((1 : Nat) : Int) - 1) = 100 from rfl]
    norm_num [ltMulSqrt, EXPECTED_MOVES, tEmg, GTree.children]
  exact ⟨h1, h2, c9_amended clock0 0 10 true (some 10) none 1 []
    ((List.replicate 11 (0 : Rat)).set 0 100) ⟨tEmg, []⟩ 0 initState h1 h2⟩

/-- Soundness of the squared comparison: `ltMulSqrt a b n` decides exactly
the real-number comparison `a < b * sqrt n` that the source's
`depth_time[d-1] * math.sqrt(len(...))` expression performs. -/
theorem ltMulSqrt_iff (a b : Rat) (n : Nat) :
    ltMulSqrt a b n = true ↔ (a : Real) < (b : Real) * Real.sqrt n := by
  have hs0 : (0 : Real) ≤ Real.sqrt n := Real.sqrt_nonneg _
  have hsq : Real.sqrt n ^ 2 = (n : Real) :=
    Real.sq_sqrt (by positivity)
  rcases le_or_lt 0 b with hb | hb
  · have hbr : (0 : Real) ≤ (b : Real) := by exact_mod_cast hb
    rw [ltMulSqrt, if_pos hb]
    simp only [Bool.or_eq_true, Bool.and_eq_true, decide_eq_true_eq]
    constructor
    · rintro (h | ⟨h0, h2⟩)
      · have : (a : Real) < 0 := by exact_mod_cast h
        exact lt_of_lt_of_le this (by positivity)
      · have h0r : (0 : Real) ≤ (a : Real) := by exact_mod_cast h0
        have h2r : (a : Real) ^ 2 < (b : Real) ^ 2 * n := by
          exact_mod_cast h2
        by_contra hcon
        push_neg at hcon
        have := pow_le_pow_left (by positivity) hcon 2
        rw [mul_pow, hsq] at this
        linarith
    · intro h
      rcases lt_or_le a 0 with h0 | h0
      · exact Or.inl h0
      · refine Or.inr ⟨h0, ?_⟩
        have h0r : (0 : Real) ≤ (a : Real) := by exact_mod_cast h0
        have := pow_lt_pow_left h h0r (two_ne_zero)
        rw [mul_pow, hsq] at this
        exact_mod_cast this
  · have hbr : (b : Real) < 0 := by exact_mod_cast hb
    rw [ltMulSqrt, if_neg (not_le.2 hb)]
    simp only [Bool.and_eq_true, decide_eq_true_eq]
    rcases Nat.eq_zero_or_pos n with hn | hn
    · subst hn
      simp only [Nat.cast_zero, Real.sqrt_zero, mul_zero]
      constructor
      · rintro ⟨h, _⟩
        exact_mod_cast h
      · intro h
        have ha : a < 0 := by exact_mod_cast h
        refine ⟨ha, ?_⟩
        have : (0 : Rat) < a ^ 2 := by nlinarith
        simpa using this
    · have hsn : (0 : Real) < Real.sqrt n := by
        apply Real.sqrt_pos.2
        exact_mod_cast hn
      have hneg : (b : Real) * Real.sqrt n < 0 := mul_neg_of_neg_of_pos hbr hsn
      constructor
      · rintro ⟨h0, h2⟩
        have h0r : (a : Real) < 0 := by exact_mod_cast h0
        have h2r : (b : Real) ^ 2 * n < (a : Real) ^ 2 := by exact_mod_cast h2
        by_contra hcon
        push_neg at hcon
        have hle : -(a : Real) ≤ -((b : Real) * Real.sqrt n) := by linarith
        have := pow_le_pow_left (by linarith : (0 : Real) ≤ -(a : Real)) hle 2
        have hb2 : (-((b : Real) * Real.sqrt n)) ^ 2 = (b : Real) ^ 2 * n := by
          rw [neg_pow, mul_pow, hsq]
          ring
        have ha2 : (-(a : Real)) ^ 2 = (a : Real) ^ 2 := by ring
        rw [hb2, ha2] at this
        linarith
      · intro h
        have h0r : (a : Real) < 0 := lt_trans h hneg
        have h0 : a < 0 := by exact_mod_cast h0r
        refine ⟨h0, ?_⟩
        have hlt : -((b : Real) * Real.sqrt n) < -(a : Real) := by linarith
        have := pow_lt_pow_left hlt (by linarith : (0 : Real) ≤ -((b : Real) * Real.sqrt n)) (two_ne_zero)
        have hb2 : (-((b : Real) * Real.sqrt n)) ^ 2 = (b : Real) ^ 2 * n := by
          rw [neg_pow, mul_pow, hsq]
          ring
        have ha2 : (-(a : Real)) ^ 2 = (a : Real) ^ 2 := by ring
        rw [hb2, ha2] at this
        exact_mod_cast this
